import Mathlib

/-!
Shallow embedding of the CVRP constructive heuristics in `heuristics.py`
(`basic_data`, `insertion`, `route_first_cluster_second`, `savings`).

Modelling conventions:
* Coordinates and demands are rationals.  The Euclidean distance
  `_euclidean` computes a square root, which is irrational in general, so
  every builder is parameterised over the distance function
  `dist : Point K → Point K → K`; every theorem below is proved for an
  arbitrary `dist`, hence in particular for the Euclidean one.
* A pyvrp `ProblemData` is modelled by the fields the code reads: the
  depot list, the client list (position and delivery amounts), the first
  vehicle type's capacity list, and `num_vehicles`.
* A missing capacity dimension is `float("inf")` in the code; it is
  modelled as `Option K` with `none` standing for the infinite capacity,
  and the comparison `x > capacity` becomes `gtCap x cap`, which is
  `false` at `none`.
* CPython iterates over a set of the integers `0..n-1` in ascending
  order (small nonnegative ints hash to themselves and the table is
  scanned in slot order, deletions leaving holes); the sets `unvisited`
  are therefore modelled as ascending lists, with `List.erase` for
  `set.remove`.
* Python's `min` and the running-best scan of cheapest insertion keep
  the first element attaining the minimum (`<` comparisons only); both
  are modelled by `pymin`.
* `list.sort(key=lambda x: x[0], reverse=True)` is a stable descending
  sort; it is modelled by `List.insertionSort` with the non-strict
  descending comparison on the first component, which is a stable sort,
  and a stable sort's output is unique given the comparison.
* Negative Python slice indices (`routes[max_vehicles - 1:]` when
  `max_vehicles = 0` in `route_first_cluster_second`) are modelled by
  `pyTakeSlice` / `pyDropSlice` on `Int` indices.
* Fallible code returns `Except String`; `raise ValueError` is
  `Except.error`, and so is the `ValueError` that Python's `min` raises
  on an empty sequence.
-/

namespace Heur

variable {K : Type} [LinearOrderedCommRing K]

abbrev Point (K : Type) : Type := K × K

/-- One pyvrp client, as read by `basic_data`: a position and the
delivery (demand) amounts per load dimension. -/
structure Client (K : Type) where
  x : K
  y : K
  delivery : List K
deriving DecidableEq

/-- One pyvrp vehicle type: the capacity per load dimension. -/
structure VehicleType (K : Type) where
  capacity : List K
deriving DecidableEq

/-- The slice of a pyvrp `ProblemData` that `heuristics.py` reads. -/
structure ProblemData (K : Type) where
  depots : List (Point K)
  clients : List (Client K)
  vehicleTypes : List (VehicleType K)
  num_vehicles : ℕ
deriving DecidableEq

/-- `basic_data`: extracts depot coordinates, client coordinates, client
demands (first delivery dimension, `0` if absent) and the capacity
(first dimension of vehicle type 0, infinite i.e. `none` if absent). -/
def basic_data (data : ProblemData K) :
    Except String (Point K × List (Point K) × List K × Option K) :=
  match data.depots with
  | [] => Except.error "Instância sem depósito."
  | depot :: _ =>
    match data.vehicleTypes with
    | [] => Except.error "vehicle type 0 out of range"
    | vtype :: _ =>
      let capacity : Option K := vtype.capacity.head?
      let client_coords : List (Point K) := data.clients.map (fun c => (c.x, c.y))
      let client_demands : List K := data.clients.map (fun c => c.delivery.headD 0)
      Except.ok (depot, client_coords, client_demands, capacity)

/-- The comparison `x > capacity` where `capacity` may be `float("inf")`
(modelled by `none`): always false at infinite capacity. -/
def gtCap (x : K) (cap : Option K) : Bool :=
  match cap with
  | none => false
  | some c => decide (c < x)

/-- Python's `min(xs, key=f)` on a nonempty sequence, and likewise the
running-best update `if f y < f best: best = y` of cheapest insertion:
the first element attaining the minimum is kept.  `none` on the empty
sequence (where Python raises `ValueError`). -/
def pymin {α : Type} (f : α → K) : List α → Option α
  | [] => none
  | x :: xs => some (xs.foldl (fun best y => if f y < f best then y else best) x)

/-- Total demand of a route, indexing into the demand list. -/
def routeLoad (demands : List K) (r : List ℕ) : K :=
  (r.map (fun c => demands.getD c 0)).sum

/-- The capacity-split scan shared by `insertion` and
`route_first_cluster_second`: walk the order, close the current route
when adding the next client would exceed capacity for a nonempty route. -/
def capSplitGo (demands : List K) (cap : Option K) :
    List ℕ → List (List ℕ) → List ℕ → K → List (List ℕ)
  | [], routes, current_route, _ =>
    if current_route = [] then routes else routes ++ [current_route]
  | client :: rest, routes, current_route, current_load =>
    if current_route ≠ [] ∧ gtCap (current_load + demands.getD client 0) cap then
      capSplitGo demands cap rest (routes ++ [current_route]) [client] (demands.getD client 0)
    else
      capSplitGo demands cap rest routes (current_route ++ [client])
        (current_load + demands.getD client 0)

/-- The capacity split of a visiting order, starting from no routes. -/
def capSplit (demands : List K) (cap : Option K) (order : List ℕ) : List (List ℕ) :=
  capSplitGo demands cap order [] [] 0

/-- Python's `list.insert(pos, x)` (clamping `pos` to the length). -/
def pyInsert (l : List ℕ) (pos : ℕ) (x : ℕ) : List ℕ :=
  l.take pos ++ x :: l.drop pos

/-- The enumeration order of the cheapest-insertion scan: clients in
ascending index order (CPython set iteration), insertion positions left
to right, `0` through `route.length`. -/
def insertionPairs (routeLen : ℕ) (unvisited : List ℕ) : List (ℕ × ℕ) :=
  unvisited.flatMap (fun c => (List.range (routeLen + 1)).map (fun pos => (c, pos)))

/-- The cost increase of inserting client `c` at position `pos`:
`d(prev, c) + d(c, next) - d(prev, next)`, with the depot at the
boundaries. -/
def insDelta (dist : Point K → Point K → K) (depot : Point K) (coords : List (Point K))
    (route : List ℕ) (c pos : ℕ) : K :=
  let prev := if pos = 0 then depot else coords.getD (route.getD (pos - 1) 0) depot
  let next := if pos = route.length then depot else coords.getD (route.getD pos 0) depot
  dist prev (coords.getD c depot) + dist (coords.getD c depot) next - dist prev next

/-- The cheapest-insertion loop: while clients remain unvisited, pick
the (client, position) pair of smallest cost increase (first encountered
on ties) and insert.  `fuel` is the number of unvisited clients. -/
def insertLoop (dist : Point K → Point K → K) (depot : Point K) (coords : List (Point K)) :
    ℕ → List ℕ → List ℕ → List ℕ
  | 0, route, _ => route
  | fuel + 1, route, unvisited =>
    match pymin (fun p => insDelta dist depot coords route p.1 p.2)
        (insertionPairs route.length unvisited) with
    | none => route
    | some p =>
      insertLoop dist depot coords fuel (pyInsert route p.2 p.1) (unvisited.erase p.1)

/-- `insertion`: cheapest-insertion order, then capacity split.  No
fleet-size repair is performed by this builder. -/
def insertion (dist : Point K → Point K → K) (data : ProblemData K) :
    Except String (List (List ℕ)) :=
  match basic_data data with
  | Except.error e => Except.error e
  | Except.ok (depot_coord, client_coords, client_demands, capacity) =>
    let num_clients := client_coords.length
    match pymin (fun j => dist depot_coord (client_coords.getD j depot_coord))
        (List.range num_clients) with
    | none => Except.error "min() arg is an empty sequence"
    | some first =>
      let unvisited := (List.range num_clients).erase first
      let route := insertLoop dist depot_coord client_coords unvisited.length [first] unvisited
      Except.ok (capSplit client_demands capacity route)

/-- The nearest-neighbour loop of the giant tour: repeatedly move to the
nearest unvisited client (ties to the smallest index).  `fuel` is the
number of unvisited clients. -/
def nnLoop (dist : Point K → Point K → K) (coords : List (Point K)) :
    ℕ → ℕ → List ℕ → List ℕ
  | 0, _, _ => []
  | fuel + 1, current, unvisited =>
    match pymin (fun j => dist (coords.getD current ((0 : K), (0 : K)))
        (coords.getD j ((0 : K), (0 : K)))) unvisited with
    | none => []
    | some nxt => nxt :: nnLoop dist coords fuel nxt (unvisited.erase nxt)

/-- The nearest-neighbour giant tour, starting from the client nearest
the depot; `none` when there are no clients (Python's `min` raises). -/
def giantTour (dist : Point K → Point K → K) (depot : Point K) (coords : List (Point K)) :
    Option (List ℕ) :=
  let n := coords.length
  match pymin (fun j => dist depot (coords.getD j ((0 : K), (0 : K)))) (List.range n) with
  | none => none
  | some first =>
    let unvisited := (List.range n).erase first
    some (first :: nnLoop dist coords unvisited.length first unvisited)

/-- Python slice `l[k:]` with a possibly negative index. -/
def pyDropSlice {α : Type} (l : List α) (k : Int) : List α :=
  l.drop (if k < 0 then ((l.length : Int) + k).toNat else k.toNat)

/-- Python slice `l[:k]` with a possibly negative index. -/
def pyTakeSlice {α : Type} (l : List α) (k : Int) : List α :=
  l.take (if k < 0 then ((l.length : Int) + k).toNat else k.toNat)

/-- The fleet-size repair of `route_first_cluster_second`: when the
route count exceeds `num_vehicles`, concatenate all routes from index
`num_vehicles - 1` on into one final route (Python slice semantics: at
`num_vehicles = 0` the index `-1` refers to the last route). -/
def rfcsRepair (routes : List (List ℕ)) (max_vehicles : ℕ) : List (List ℕ) :=
  if routes.length > max_vehicles then
    pyTakeSlice routes ((max_vehicles : Int) - 1)
      ++ [(pyDropSlice routes ((max_vehicles : Int) - 1)).flatten]
  else routes

/-- The giant tour split by capacity, before the fleet-size repair. -/
def rfcsNaturalRoutes (dist : Point K → Point K → K) (data : ProblemData K) :
    Except String (List (List ℕ)) :=
  match basic_data data with
  | Except.error e => Except.error e
  | Except.ok (depot_coord, client_coords, client_demands, capacity) =>
    match giantTour dist depot_coord client_coords with
    | none => Except.error "min() arg is an empty sequence"
    | some tour => Except.ok (capSplit client_demands capacity tour)

/-- `route_first_cluster_second`: nearest-neighbour giant tour, capacity
split, then the fleet-size repair. -/
def route_first_cluster_second (dist : Point K → Point K → K) (data : ProblemData K) :
    Except String (List (List ℕ)) :=
  match rfcsNaturalRoutes dist data with
  | Except.error e => Except.error e
  | Except.ok routes => Except.ok (rfcsRepair routes data.num_vehicles)

/-- The Clarke-Wright savings list: `(s_ij, i, j)` for all `i < j`, with
`s_ij = d(depot, i) + d(depot, j) - d(i, j)`, enumerated with `i`
ascending and, inside, `j` ascending. -/
def savingsList (dist : Point K → Point K → K) (depot : Point K) (coords : List (Point K)) :
    List (K × ℕ × ℕ) :=
  let n := coords.length
  let dep := fun i => dist depot (coords.getD i ((0 : K), (0 : K)))
  (List.range n).flatMap (fun i =>
    (List.range' (i + 1) (n - (i + 1))).map (fun j =>
      (dep i + dep j - dist (coords.getD i ((0 : K), (0 : K))) (coords.getD j ((0 : K), (0 : K))),
       i, j)))

/-- Python's stable `sort(key=lambda x: x[0], reverse=True)`: a stable
sort by non-strict descending saving value.  Modelled by insertion sort
with the non-strict descending comparison on the first component, which
is a stable sort; a stable sort's output is uniquely determined by the
comparison and the input order, so this agrees with Python's Timsort. -/
def sortedSavings (l : List (K × ℕ × ℕ)) : List (K × ℕ × ℕ) :=
  l.insertionSort (fun a b => b.1 ≤ a.1)

/-- The mutable state of the savings merge loop: the route array (routes
are emptied in place when absorbed), the per-route load sums, and the
client-to-route index map. -/
structure SavState (K : Type) where
  routes : List (List ℕ)
  route_loads : List K
  client_route : List ℕ
deriving DecidableEq

/-- Initial savings state: one singleton route per client. -/
def savingsInit (demands : List K) (n : ℕ) : SavState K :=
  { routes := (List.range n).map (fun i => [i])
    route_loads := (List.range n).map (fun i => demands.getD i 0)
    client_route := List.range n }

/-- The in-place merge of the savings loop: route `ri` receives the
merged route, route `rj` is emptied, the loads are transferred, and the
absorbed clients of `route_j` are remapped to `ri`. -/
def savMerge (st : SavState K) (ri rj : ℕ) (load_i load_j : K)
    (route_j : List ℕ) (new_route : List ℕ) : SavState K :=
  { routes := (st.routes.set ri new_route).set rj []
    route_loads := (st.route_loads.set ri (load_i + load_j)).set rj 0
    client_route := route_j.foldl (fun m c => m.set c ri) st.client_route }

/-- The branch logic of one savings merge iteration, on the values read
from the state: skip when already in the same route, when a route was
emptied earlier, when capacity would be exceeded, or when `i` or `j` is
interior; otherwise merge with the orientation keeping `i` and `j`
adjacent. -/
def savStepCore (cap : Option K) (st : SavState K) (i j ri rj : ℕ)
    (route_i route_j : List ℕ) (load_i load_j : K) : SavState K :=
  if ri = rj then st
  else if route_i = [] ∨ route_j = [] then st
  else if gtCap (load_i + load_j) cap then st
  else if ¬ ((route_i.head? = some i ∨ route_i.getLast? = some i)
      ∧ (route_j.head? = some j ∨ route_j.getLast? = some j)) then st
  else
    if route_i.getLast? = some i ∧ route_j.head? = some j then
      savMerge st ri rj load_i load_j route_j (route_i ++ route_j)
    else if route_i.head? = some i ∧ route_j.getLast? = some j then
      savMerge st ri rj load_i load_j route_j (route_j ++ route_i)
    else if route_i.head? = some i ∧ route_j.head? = some j then
      savMerge st ri rj load_i load_j route_j (route_i.reverse ++ route_j)
    else if route_i.getLast? = some i ∧ route_j.getLast? = some j then
      savMerge st ri rj load_i load_j route_j (route_i ++ route_j.reverse)
    else st

/-- One iteration of the savings merge loop on the pair `(i, j)` of the
savings tuple `t`: read the routes, loads and route indices of `i` and
`j` from the state and dispatch to `savStepCore`. -/
def savStep (cap : Option K) (st : SavState K) (t : K × ℕ × ℕ) : SavState K :=
  savStepCore cap st t.2.1 t.2.2
    (st.client_route.getD t.2.1 0) (st.client_route.getD t.2.2 0)
    (st.routes.getD (st.client_route.getD t.2.1 0) [])
    (st.routes.getD (st.client_route.getD t.2.2 0) [])
    (st.route_loads.getD (st.client_route.getD t.2.1 0) 0)
    (st.route_loads.getD (st.client_route.getD t.2.2 0) 0)

/-- The savings precondition scan: the first client whose demand exceeds
the capacity, if any (the code raises `ValueError` naming it). -/
def savingsCheck (demands : List K) (cap : Option K) : Option ℕ :=
  (List.range demands.length).find? (fun c => gtCap (demands.getD c 0) cap)

/-- The merge phase of the savings builder: fold the merge step over the
sorted savings list starting from singleton routes. -/
def savingsMergePhase (dist : Point K → Point K → K) (depot : Point K) (coords : List (Point K))
    (demands : List K) (cap : Option K) : SavState K :=
  (sortedSavings (savingsList dist depot coords)).foldl (savStep cap)
    (savingsInit demands coords.length)

/-- The fleet-size repair of `savings` (guarded by `max_vehicles > 0`). -/
def savingsRepair (final_routes : List (List ℕ)) (max_vehicles : ℕ) : List (List ℕ) :=
  if max_vehicles > 0 ∧ final_routes.length > max_vehicles then
    final_routes.take (max_vehicles - 1)
      ++ [(final_routes.drop (max_vehicles - 1)).flatten]
  else final_routes

/-- The savings routes after dropping emptied routes, before the
fleet-size repair. -/
def savingsNaturalRoutes (dist : Point K → Point K → K) (data : ProblemData K) :
    Except String (List (List ℕ)) :=
  match basic_data data with
  | Except.error e => Except.error e
  | Except.ok (depot_coord, client_coords, client_demands, capacity) =>
    match savingsCheck client_demands capacity with
    | some c =>
      Except.error ("Cliente " ++ toString c ++ " tem demanda maior que capacidade.")
    | none =>
      Except.ok ((savingsMergePhase dist depot_coord client_coords
        client_demands capacity).routes.filter (fun r => !r.isEmpty))

/-- `savings`: precondition check, Clarke-Wright merge phase, cleanup of
emptied routes, then the fleet-size repair. -/
def savings (dist : Point K → Point K → K) (data : ProblemData K) :
    Except String (List (List ℕ)) :=
  match savingsNaturalRoutes dist data with
  | Except.error e => Except.error e
  | Except.ok final_routes => Except.ok (savingsRepair final_routes data.num_vehicles)

/-- The running-best scan underlying `pymin` on a nonempty list. -/
def runBest {α : Type} (f : α → K) (x : α) (xs : List α) : α :=
  xs.foldl (fun best y => if f y < f best then y else best) x

/-- A route either fits the capacity or is a lone client whose own
demand exceeds the capacity. -/
def routeFits (demands : List K) (cap : Option K) (r : List ℕ) : Prop :=
  ¬ gtCap (routeLoad demands r) cap = true
    ∨ ∃ c, r = [c] ∧ gtCap (demands.getD c 0) cap = true

/-- Strict lexicographic order on client pairs. -/
def pairLt (p q : ℕ × ℕ) : Prop :=
  p.1 < q.1 ∨ (p.1 = q.1 ∧ p.2 < q.2)

/-- Decidable equality of `Except` results, so that concrete builder
outputs can be checked by `decide`. -/
instance instDecEqExcept {e a : Type} [DecidableEq e] [DecidableEq a] :
    DecidableEq (Except e a) := fun x y =>
  match x, y with
  | Except.ok u, Except.ok v =>
    if h : u = v then isTrue (by rw [h])
    else isFalse (fun hc => h (Except.ok.inj hc))
  | Except.error u, Except.error v =>
    if h : u = v then isTrue (by rw [h])
    else isFalse (fun hc => h (Except.error.inj hc))
  | Except.ok _, Except.error _ => isFalse (fun hc => Except.noConfusion hc)
  | Except.error _, Except.ok _ => isFalse (fun hc => Except.noConfusion hc)

/-- The degenerate distance function that is zero everywhere (used to
instantiate theorems at concrete inputs; every theorem holds for all
distance functions). -/
def distZero : Point ℤ → Point ℤ → ℤ := fun _ _ => 0

/-- The Euclidean distance restricted to points on the x-axis, where it
is the integer `|x1 - x2|` (used to instantiate theorems at concrete
collinear inputs). -/
def distLine : Point ℤ → Point ℤ → ℤ :=
  fun p q => if p.1 ≤ q.1 then q.1 - p.1 else p.1 - q.1

/-- A concrete instance on the x-axis: one depot at the origin, clients
given by (x-coordinate, demand) pairs. -/
def lineData (xs : List (ℤ × ℤ)) (cap : List ℤ) (nv : ℕ) : ProblemData ℤ :=
  { depots := [((0 : ℤ), (0 : ℤ))]
    clients := xs.map (fun cd => { x := cd.1, y := 0, delivery := [cd.2] })
    vehicleTypes := [{ capacity := cap }]
    num_vehicles := nv }

/-- Two unit-demand clients, capacity 1, one vehicle: the capacity split
needs two routes, exceeding the fleet. -/
def dataA : ProblemData ℤ := lineData [(1, 1), (2, 1)] [1] 1

/-- Three clients of demand 5, capacity 5, two vehicles: three natural
routes, repaired down to two. -/
def dataB : ProblemData ℤ := lineData [(1, 5), (2, 5), (3, 5)] [5] 2

/-- A single client whose demand 20 exceeds the capacity 10. -/
def dataC : ProblemData ℤ := lineData [(1, 20)] [10] 3

/-- A depot with no clients at all. -/
def dataD : ProblemData ℤ := lineData [] [10] 3

/-- Three clients with no declared capacity dimension (infinite
capacity). -/
def dataE : ProblemData ℤ := lineData [(1, 5), (5, 5), (3, 5)] [] 1

/-- Scenario 1 of the spec: clients at x = 1, 2, 3 with demand 5 each,
capacity 10, two vehicles. -/
def dataF : ProblemData ℤ := lineData [(1, 5), (2, 5), (3, 5)] [10] 2

/-- The invariant maintained by the savings merge loop: the tracked
load of every route index equals the actual total demand of the stored
route, and every non-empty route fits the capacity. -/
def LoadInv (demands : List K) (cap : Option K) (st : SavState K) : Prop :=
  st.route_loads.length = st.routes.length
  ∧ ∀ k : ℕ, st.route_loads.getD k 0 = routeLoad demands (st.routes.getD k [])
      ∧ (st.routes.getD k [] ≠ [] → ¬ gtCap (st.route_loads.getD k 0) cap = true)

theorem runBest_min {α : Type} (f : α → K) :
    ∀ (xs : List α) (x : α),
      f (runBest f x xs) ≤ f x ∧ ∀ y ∈ xs, f (runBest f x xs) ≤ f y := by
  intro xs
  induction xs with
  | nil => intro x; exact ⟨le_refl _, by simp⟩
  | cons y ys ih =>
    intro x
    have hstep : runBest f x (y :: ys) = runBest f (if f y < f x then y else x) ys := rfl
    obtain ⟨h1, h2⟩ := ih (if f y < f x then y else x)
    rw [hstep]
    constructor
    · refine le_trans h1 ?_
      by_cases h : f y < f x
      · simp only [if_pos h]; exact le_of_lt h
      · simp only [if_neg h]; exact le_refl _
    · intro z hz
      rcases List.mem_cons.mp hz with rfl | hz
      · refine le_trans h1 ?_
        by_cases h : f z < f x
        · simp only [if_pos h]; exact le_refl _
        · simp only [if_neg h]; exact le_of_not_lt h
      · exact h2 z hz

theorem runBest_spec {α : Type} (f : α → K) :
    ∀ (xs : List α) (x : α),
      ∃ l₁ l₂, x :: xs = l₁ ++ runBest f x xs :: l₂
        ∧ (∀ y ∈ l₁, f (runBest f x xs) < f y)
        ∧ (∀ y ∈ l₂, f (runBest f x xs) ≤ f y) := by
  intro xs
  induction xs with
  | nil => intro x; exact ⟨[], [], rfl, by simp, by simp⟩
  | cons y ys ih =>
    intro x
    by_cases h : f y < f x
    · have hr : runBest f x (y :: ys) = runBest f y ys := by
        simp [runBest, List.foldl, if_pos h]
      obtain ⟨l₁, l₂, he, h₁, h₂⟩ := ih y
      refine ⟨x :: l₁, l₂, ?_, ?_, ?_⟩
      · rw [hr, List.cons_append, ← he]
      · intro z hz
        rcases List.mem_cons.mp hz with rfl | hz
        · rw [hr]
          exact lt_of_le_of_lt (runBest_min f ys y).1 h
        · rw [hr]; exact h₁ z hz
      · intro z hz; rw [hr]; exact h₂ z hz
    · have hr : runBest f x (y :: ys) = runBest f x ys := by
        simp [runBest, List.foldl, if_neg h]
      obtain ⟨l₁, l₂, he, h₁, h₂⟩ := ih x
      match l₁, he with
      | [], he =>
        have hx : runBest f x ys = x := by
          have := congrArg (fun l => l.head?) he
          simpa using this.symm
        have hys : l₂ = ys := by
          have := congrArg (fun l => l.tail) he
          simpa using this.symm
        refine ⟨[], y :: ys, ?_, by simp, ?_⟩
        · rw [hr, hx]; rfl
        · intro z hz
          rcases List.mem_cons.mp hz with rfl | hz
          · rw [hr, hx]; exact le_of_not_lt h
          · rw [hr]; exact h₂ z (hys ▸ hz)
      | a :: t, he =>
        have ha : a = x := by
          have := congrArg (fun l => l.head?) he
          simpa using this.symm
        have hys : ys = t ++ runBest f x ys :: l₂ := by
          have := congrArg (fun l => l.tail) he
          simpa using this
        refine ⟨x :: y :: t, l₂, ?_, ?_, ?_⟩
        · rw [hr, List.cons_append, List.cons_append, ← hys]
        · intro z hz
          have hx₁ : f (runBest f x ys) < f x := h₁ x (by rw [ha] at he ⊢; exact List.mem_cons_self x t)
          rcases List.mem_cons.mp hz with rfl | hz
          · rw [hr]; exact hx₁
          rcases List.mem_cons.mp hz with rfl | hz
          · rw [hr]; exact lt_of_lt_of_le hx₁ (le_of_not_lt h)
          · rw [hr]; exact h₁ z (List.mem_cons_of_mem a hz)
        · intro z hz; rw [hr]; exact h₂ z hz

theorem pymin_eq_none {α : Type} (f : α → K) (l : List α) :
    pymin f l = none ↔ l = [] := by
  cases l <;> simp [pymin]

theorem pymin_spec {α : Type} (f : α → K) (l : List α) (m : α)
    (h : pymin f l = some m) :
    ∃ l₁ l₂, l = l₁ ++ m :: l₂
      ∧ (∀ y ∈ l₁, f m < f y) ∧ (∀ y ∈ l₂, f m ≤ f y) := by
  match l, h with
  | x :: xs, h =>
    have hm : runBest f x xs = m := by
      simpa [pymin, runBest] using h
    obtain ⟨l₁, l₂, he, h₁, h₂⟩ := runBest_spec f xs x
    rw [hm] at he h₁ h₂
    exact ⟨l₁, l₂, he, h₁, h₂⟩

theorem pymin_mem {α : Type} (f : α → K) (l : List α) (m : α)
    (h : pymin f l = some m) : m ∈ l := by
  obtain ⟨l₁, l₂, he, -, -⟩ := pymin_spec f l m h
  rw [he]
  exact List.mem_append_right l₁ (List.mem_cons_self m l₂)

theorem pymin_le {α : Type} (f : α → K) (l : List α) (m : α)
    (h : pymin f l = some m) : ∀ y ∈ l, f m ≤ f y := by
  obtain ⟨l₁, l₂, he, h₁, h₂⟩ := pymin_spec f l m h
  intro y hy
  rw [he] at hy
  rcases List.mem_append.mp hy with hy | hy
  · exact le_of_lt (h₁ y hy)
  · rcases List.mem_cons.mp hy with rfl | hy
    · exact le_refl _
    · exact h₂ y hy

theorem pymin_tie_min {α : Type} [Preorder α] (f : α → K) (l : List α) (m : α)
    (hs : l.Pairwise (· < ·)) (h : pymin f l = some m) :
    ∀ y ∈ l, f y = f m → m ≤ y := by
  obtain ⟨l₁, l₂, he, h₁, h₂⟩ := pymin_spec f l m h
  subst he
  intro y hy hfy
  rcases List.mem_append.mp hy with hy | hy
  · exact absurd hfy (ne_of_gt (h₁ y hy))
  · rcases List.mem_cons.mp hy with rfl | hy
    · exact le_refl _
    · obtain ⟨-, hmid⟩ := List.pairwise_append.mp hs
      exact le_of_lt ((List.pairwise_cons.mp hmid.1).1 y hy)

theorem capSplitGo_cons (demands : List K) (cap : Option K) (c : ℕ) (cs : List ℕ)
    (routes : List (List ℕ)) (current : List ℕ) (load : K) :
    capSplitGo demands cap (c :: cs) routes current load
      = if current ≠ [] ∧ gtCap (load + demands.getD c 0) cap then
          capSplitGo demands cap cs (routes ++ [current]) [c] (demands.getD c 0)
        else
          capSplitGo demands cap cs routes (current ++ [c]) (load + demands.getD c 0) := rfl

theorem capSplitGo_flatten (demands : List K) (cap : Option K) :
    ∀ (rest : List ℕ) (routes : List (List ℕ)) (current : List ℕ) (load : K),
      (capSplitGo demands cap rest routes current load).flatten
        = routes.flatten ++ (current ++ rest) := by
  intro rest
  induction rest with
  | nil =>
    intro routes current load
    by_cases h : current = [] <;> simp [capSplitGo, h]
  | cons c cs ih =>
    intro routes current load
    by_cases h : current ≠ [] ∧ gtCap (load + demands.getD c 0) cap
    · rw [capSplitGo_cons, if_pos h, ih]
      simp
    · rw [capSplitGo_cons, if_neg h, ih]
      simp

theorem capSplit_flatten (demands : List K) (cap : Option K) (order : List ℕ) :
    (capSplit demands cap order).flatten = order := by
  rw [capSplit, capSplitGo_flatten]
  simp

theorem capSplitGo_fit (demands : List K) (cap : Option K) :
    ∀ (rest : List ℕ) (routes : List (List ℕ)) (current : List ℕ) (load : K),
      (∀ r ∈ routes, routeFits demands cap r) →
      load = routeLoad demands current →
      (current = [] ∨ ¬ gtCap load cap = true
        ∨ ∃ c, current = [c] ∧ gtCap (demands.getD c 0) cap = true) →
      ∀ r ∈ capSplitGo demands cap rest routes current load, routeFits demands cap r := by
  intro rest
  induction rest with
  | nil =>
    intro routes current load hroutes hload hcur r hr
    by_cases h : current = []
    · rw [capSplitGo, if_pos h] at hr
      exact hroutes r hr
    · rw [capSplitGo, if_neg h] at hr
      rcases List.mem_append.mp hr with hr | hr
      · exact hroutes r hr
      · have : r = current := by simpa using hr
        subst this
        rcases hcur with hc | hc | hc
        · exact absurd hc h
        · exact Or.inl (hload ▸ hc)
        · exact Or.inr hc
  | cons c cs ih =>
    intro routes current load hroutes hload hcur r hr
    by_cases h : current ≠ [] ∧ gtCap (load + demands.getD c 0) cap
    · rw [capSplitGo_cons, if_pos h] at hr
      refine ih (routes ++ [current]) [c] (demands.getD c 0) ?_ ?_ ?_ r hr
      · intro r' hr'
        rcases List.mem_append.mp hr' with hr' | hr'
        · exact hroutes r' hr'
        · have : r' = current := by simpa using hr'
          subst this
          rcases hcur with hc | hc | hc
          · exact absurd hc h.1
          · exact Or.inl (hload ▸ hc)
          · exact Or.inr hc
      · simp [routeLoad]
      · by_cases hd : gtCap (demands.getD c 0) cap
        · exact Or.inr (Or.inr ⟨c, rfl, hd⟩)
        · exact Or.inr (Or.inl hd)
    · rw [capSplitGo_cons, if_neg h] at hr
      refine ih routes (current ++ [c]) (load + demands.getD c 0) hroutes ?_ ?_ r hr
      · rw [hload]; simp [routeLoad]
      · by_cases hcnil : current = []
        · subst hcnil
          by_cases hd : gtCap (demands.getD c 0) cap
          · refine Or.inr (Or.inr ⟨c, rfl, hd⟩)
          · refine Or.inr (Or.inl ?_)
            simpa [hload, routeLoad] using hd
        · have : ¬ gtCap (load + demands.getD c 0) cap := by
            intro hg
            exact h ⟨hcnil, hg⟩
          exact Or.inr (Or.inl this)

theorem capSplit_fit (demands : List K) (cap : Option K) (order : List ℕ) :
    ∀ r ∈ capSplit demands cap order, routeFits demands cap r := by
  refine capSplitGo_fit demands cap order [] [] 0 (by simp) (by simp [routeLoad]) (Or.inl rfl)

theorem capSplitGo_ne_nil (demands : List K) (cap : Option K) :
    ∀ (rest : List ℕ) (routes : List (List ℕ)) (current : List ℕ) (load : K),
      (∀ r ∈ routes, r ≠ []) →
      ∀ r ∈ capSplitGo demands cap rest routes current load, r ≠ [] := by
  intro rest
  induction rest with
  | nil =>
    intro routes current load hroutes r hr
    by_cases h : current = []
    · rw [capSplitGo, if_pos h] at hr; exact hroutes r hr
    · rw [capSplitGo, if_neg h] at hr
      rcases List.mem_append.mp hr with hr | hr
      · exact hroutes r hr
      · have : r = current := by simpa using hr
        subst this; exact h
  | cons c cs ih =>
    intro routes current load hroutes r hr
    by_cases h : current ≠ [] ∧ gtCap (load + demands.getD c 0) cap
    · rw [capSplitGo_cons, if_pos h] at hr
      refine ih (routes ++ [current]) [c] (demands.getD c 0) ?_ r hr
      intro r' hr'
      rcases List.mem_append.mp hr' with hr' | hr'
      · exact hroutes r' hr'
      · have : r' = current := by simpa using hr'
        subst this; exact h.1
    · rw [capSplitGo_cons, if_neg h] at hr
      exact ih routes (current ++ [c]) (load + demands.getD c 0) hroutes r hr

theorem capSplit_ne_nil (demands : List K) (cap : Option K) (order : List ℕ) :
    ∀ r ∈ capSplit demands cap order, r ≠ [] :=
  capSplitGo_ne_nil demands cap order [] [] 0 (by simp)

theorem capSplitGo_none (demands : List K) :
    ∀ (rest : List ℕ) (routes : List (List ℕ)) (current : List ℕ) (load : K),
      capSplitGo demands none rest routes current load
        = if current ++ rest = [] then routes else routes ++ [current ++ rest] := by
  intro rest
  induction rest with
  | nil =>
    intro routes current load
    by_cases h : current = [] <;> simp [capSplitGo, h]
  | cons c cs ih =>
    intro routes current load
    have hg : ¬ (current ≠ [] ∧ gtCap (load + demands.getD c 0) none) := by
      simp [gtCap]
    rw [capSplitGo_cons, if_neg hg, ih]
    simp

theorem capSplit_none (demands : List K) (order : List ℕ) (h : order ≠ []) :
    capSplit demands none order = [order] := by
  rw [capSplit, capSplitGo_none]
  simp [h]

theorem pyInsert_perm (l : List ℕ) (pos : ℕ) (x : ℕ) :
    (pyInsert l pos x).Perm (x :: l) := by
  have h : (l.take pos ++ x :: l.drop pos).Perm (x :: (l.take pos ++ l.drop pos)) :=
    List.perm_middle
  rw [List.take_append_drop] at h
  exact h

theorem mem_insertionPairs (routeLen : ℕ) (unvisited : List ℕ) (p : ℕ × ℕ)
    (h : p ∈ insertionPairs routeLen unvisited) : p.1 ∈ unvisited ∧ p.2 < routeLen + 1 := by
  rw [insertionPairs, List.mem_flatMap] at h
  obtain ⟨c, hc, hp⟩ := h
  rw [List.mem_map] at hp
  obtain ⟨pos, hpos, rfl⟩ := hp
  exact ⟨hc, List.mem_range.mp hpos⟩

theorem insertionPairs_eq_nil (routeLen : ℕ) (unvisited : List ℕ) :
    insertionPairs routeLen unvisited = [] ↔ unvisited = [] := by
  cases unvisited with
  | nil => simp [insertionPairs]
  | cons c cs =>
    simp only [insertionPairs, List.flatMap_cons, iff_false, List.cons_ne_nil,
      List.append_eq_nil]
    intro hcontra
    have := congrArg List.length hcontra.1
    simp at this

theorem insertLoop_perm (dist : Point K → Point K → K) (depot : Point K) (coords : List (Point K)) :
    ∀ (fuel : ℕ) (route unvisited : List ℕ), fuel = unvisited.length →
      (insertLoop dist depot coords fuel route unvisited).Perm (route ++ unvisited) := by
  intro fuel
  induction fuel with
  | zero =>
    intro route unvisited hf
    have : unvisited = [] := by
      cases unvisited with
      | nil => rfl
      | cons a l => simp at hf
    subst this
    simp [insertLoop]
  | succ n ih =>
    intro route unvisited hf
    have hnl : unvisited ≠ [] := by
      intro hc; subst hc; simp at hf
    have hpairs : insertionPairs route.length unvisited ≠ [] := by
      rw [ne_eq, insertionPairs_eq_nil]; exact hnl
    obtain ⟨p, hp⟩ : ∃ p, pymin (fun p => insDelta dist depot coords route p.1 p.2)
        (insertionPairs route.length unvisited) = some p := by
      cases hmin : pymin (fun p => insDelta dist depot coords route p.1 p.2)
          (insertionPairs route.length unvisited) with
      | none => exact absurd ((pymin_eq_none _ _).mp hmin) hpairs
      | some p => exact ⟨p, rfl⟩
    have hc : p.1 ∈ unvisited := (mem_insertionPairs _ _ _ (pymin_mem _ _ _ hp)).1
    rw [show insertLoop dist depot coords (n + 1) route unvisited
        = insertLoop dist depot coords n (pyInsert route p.2 p.1) (unvisited.erase p.1) by
      rw [insertLoop, hp]]
    have hlen : n = (unvisited.erase p.1).length := by
      rw [List.length_erase_of_mem hc]
      omega
    refine (ih _ _ hlen).trans ?_
    have h1 : (pyInsert route p.2 p.1 ++ unvisited.erase p.1).Perm
        (p.1 :: (route ++ unvisited.erase p.1)) :=
      (pyInsert_perm route p.2 p.1).append_right _
    have h2 : (p.1 :: (route ++ unvisited.erase p.1)).Perm
        (route ++ p.1 :: unvisited.erase p.1) :=
      List.perm_middle.symm
    have h3 : (route ++ p.1 :: unvisited.erase p.1).Perm (route ++ unvisited) :=
      ((List.perm_cons_erase hc).symm).append_left route
    exact (h1.trans h2).trans h3

theorem nnLoop_perm (dist : Point K → Point K → K) (coords : List (Point K)) :
    ∀ (fuel : ℕ) (current : ℕ) (unvisited : List ℕ), fuel = unvisited.length →
      (nnLoop dist coords fuel current unvisited).Perm unvisited := by
  intro fuel
  induction fuel with
  | zero =>
    intro current unvisited hf
    have : unvisited = [] := by
      cases unvisited with
      | nil => rfl
      | cons a l => simp at hf
    subst this
    simp [nnLoop]
  | succ n ih =>
    intro current unvisited hf
    have hnl : unvisited ≠ [] := by
      intro hc; subst hc; simp at hf
    obtain ⟨m, hm⟩ : ∃ m, pymin (fun j => dist (coords.getD current ((0 : K), (0 : K)))
        (coords.getD j ((0 : K), (0 : K)))) unvisited = some m := by
      cases hmin : pymin (fun j => dist (coords.getD current ((0 : K), (0 : K)))
          (coords.getD j ((0 : K), (0 : K)))) unvisited with
      | none => exact absurd ((pymin_eq_none _ _).mp hmin) hnl
      | some m => exact ⟨m, rfl⟩
    have hmem : m ∈ unvisited := pymin_mem _ _ _ hm
    rw [show nnLoop dist coords (n + 1) current unvisited
        = m :: nnLoop dist coords n m (unvisited.erase m) by
      rw [nnLoop, hm]]
    have hlen : n = (unvisited.erase m).length := by
      rw [List.length_erase_of_mem hmem]
      omega
    exact ((ih m _ hlen).cons m).trans (List.perm_cons_erase hmem).symm

theorem getD_ne_default_lt {α : Type} (l : List α) (k : ℕ) (d : α)
    (h : l.getD k d ≠ d) : k < l.length := by
  by_contra hk
  rw [List.getD_eq_getElem?_getD, List.getElem?_eq_none (by omega)] at h
  simp at h

theorem getD_set_ne {α : Type} (l : List α) (i j : ℕ) (x d : α) (h : i ≠ j) :
    (l.set i x).getD j d = l.getD j d := by
  rw [List.getD_eq_getElem?_getD, List.getD_eq_getElem?_getD, List.getElem?_set_ne h]

theorem getD_set_self {α : Type} (l : List α) (i : ℕ) (x d : α) (h : i < l.length) :
    (l.set i x).getD i d = x := by
  rw [List.getD_eq_getElem?_getD, List.getElem?_set_self h]
  rfl

theorem flattenMS_set (x : List ℕ) :
    ∀ (l : List (List ℕ)) (k : ℕ), k < l.length →
      ((l.set k x).flatten : Multiset ℕ) + (l.getD k [] : Multiset ℕ)
        = (l.flatten : Multiset ℕ) + (x : Multiset ℕ) := by
  intro l
  induction l with
  | nil => intro k hk; simp at hk
  | cons r t ih =>
    intro k hk
    cases k with
    | zero =>
      simp only [List.set_cons_zero, List.flatten_cons, List.getD_cons_zero]
      rw [← Multiset.coe_add, ← Multiset.coe_add]
      abel
    | succ k =>
      have hk' : k < t.length := by simpa using hk
      simp only [List.set_cons_succ, List.flatten_cons, List.getD_cons_succ]
      rw [← Multiset.coe_add, ← Multiset.coe_add]
      have := ih k hk'
      calc (r : Multiset ℕ) + ((t.set k x).flatten : Multiset ℕ) + (t.getD k [] : Multiset ℕ)
          = (r : Multiset ℕ) + (((t.set k x).flatten : Multiset ℕ)
              + (t.getD k [] : Multiset ℕ)) := by abel
        _ = (r : Multiset ℕ) + ((t.flatten : Multiset ℕ) + (x : Multiset ℕ)) := by rw [this]
        _ = (r : Multiset ℕ) + (t.flatten : Multiset ℕ) + (x : Multiset ℕ) := by abel

theorem savStepCore_characterization (cap : Option K) (st : SavState K) (i j ri rj : ℕ)
    (route_i route_j : List ℕ) (load_i load_j : K) :
    savStepCore cap st i j ri rj route_i route_j load_i load_j = st ∨
    (ri ≠ rj ∧ route_i ≠ [] ∧ route_j ≠ []
      ∧ ¬ gtCap (load_i + load_j) cap = true
      ∧ ∃ new_route,
          new_route.Perm (route_i ++ route_j)
          ∧ savStepCore cap st i j ri rj route_i route_j load_i load_j
              = savMerge st ri rj load_i load_j route_j new_route) := by
  rw [savStepCore]
  split_ifs with h1 h2 h3 h4 h5 h6 h7 h8
  · exact Or.inl rfl
  · exact Or.inl rfl
  · exact Or.inl rfl
  · refine Or.inr ⟨h1, fun hc => h2 (Or.inl hc), fun hc => h2 (Or.inr hc), h3,
      _, List.Perm.refl _, rfl⟩
  · refine Or.inr ⟨h1, fun hc => h2 (Or.inl hc), fun hc => h2 (Or.inr hc), h3,
      _, List.perm_append_comm, rfl⟩
  · refine Or.inr ⟨h1, fun hc => h2 (Or.inl hc), fun hc => h2 (Or.inr hc), h3,
      _, (List.reverse_perm _).append_right _, rfl⟩
  · refine Or.inr ⟨h1, fun hc => h2 (Or.inl hc), fun hc => h2 (Or.inr hc), h3,
      _, (List.reverse_perm _).append_left _, rfl⟩
  · exact Or.inl rfl
  · exact Or.inl rfl

theorem savStep_characterization (cap : Option K) (st : SavState K) (t : K × ℕ × ℕ) :
    savStep cap st t = st ∨
    ∃ ri rj new_route,
      ri = st.client_route.getD t.2.1 0 ∧
      rj = st.client_route.getD t.2.2 0 ∧
      ri ≠ rj ∧
      st.routes.getD ri [] ≠ [] ∧
      st.routes.getD rj [] ≠ [] ∧
      ¬ gtCap (st.route_loads.getD ri 0 + st.route_loads.getD rj 0) cap = true ∧
      new_route.Perm (st.routes.getD ri [] ++ st.routes.getD rj []) ∧
      savStep cap st t = savMerge st ri rj (st.route_loads.getD ri 0)
        (st.route_loads.getD rj 0) (st.routes.getD rj []) new_route := by
  rcases savStepCore_characterization cap st t.2.1 t.2.2
      (st.client_route.getD t.2.1 0) (st.client_route.getD t.2.2 0)
      (st.routes.getD (st.client_route.getD t.2.1 0) [])
      (st.routes.getD (st.client_route.getD t.2.2 0) [])
      (st.route_loads.getD (st.client_route.getD t.2.1 0) 0)
      (st.route_loads.getD (st.client_route.getD t.2.2 0) 0) with
    h | ⟨hne, hri, hrj, hcap, nr, hperm, he⟩
  · exact Or.inl h
  · exact Or.inr ⟨_, _, nr, rfl, rfl, hne, hri, hrj, hcap, hperm, he⟩

theorem savMerge_flatten (st : SavState K) (ri rj : ℕ) (load_i load_j : K)
    (new_route : List ℕ)
    (hne : ri ≠ rj)
    (hri : st.routes.getD ri [] ≠ [])
    (hrj : st.routes.getD rj [] ≠ [])
    (hperm : new_route.Perm (st.routes.getD ri [] ++ st.routes.getD rj [])) :
    ((savMerge st ri rj load_i load_j (st.routes.getD rj []) new_route).routes.flatten
        : Multiset ℕ)
      = (st.routes.flatten : Multiset ℕ) := by
  have hriL : ri < st.routes.length := getD_ne_default_lt _ _ _ hri
  have hrjL : rj < st.routes.length := getD_ne_default_lt _ _ _ hrj
  have hrjL' : rj < (st.routes.set ri new_route).length := by simpa using hrjL
  have e1 := flattenMS_set [] (st.routes.set ri new_route) rj hrjL'
  have e2 := flattenMS_set new_route st.routes ri hriL
  rw [getD_set_ne _ _ _ _ _ hne] at e1
  have e3 : (new_route : Multiset ℕ)
      = (st.routes.getD ri [] : Multiset ℕ) + (st.routes.getD rj [] : Multiset ℕ) := by
    rw [Multiset.coe_add]
    exact Multiset.coe_eq_coe.mpr hperm
  have key : (((st.routes.set ri new_route).set rj []).flatten : Multiset ℕ)
        + (st.routes.getD rj [] : Multiset ℕ) + (st.routes.getD ri [] : Multiset ℕ)
      = (st.routes.flatten : Multiset ℕ)
        + (st.routes.getD rj [] : Multiset ℕ) + (st.routes.getD ri [] : Multiset ℕ) := by
    calc (((st.routes.set ri new_route).set rj []).flatten : Multiset ℕ)
          + (st.routes.getD rj [] : Multiset ℕ) + (st.routes.getD ri [] : Multiset ℕ)
        = ((st.routes.set ri new_route).flatten : Multiset ℕ)
            + (([] : List ℕ) : Multiset ℕ) + (st.routes.getD ri [] : Multiset ℕ) := by
          rw [e1]
      _ = ((st.routes.set ri new_route).flatten : Multiset ℕ)
            + (st.routes.getD ri [] : Multiset ℕ) := by
          simp
      _ = (st.routes.flatten : Multiset ℕ) + (new_route : Multiset ℕ) := e2
      _ = (st.routes.flatten : Multiset ℕ)
            + (st.routes.getD rj [] : Multiset ℕ) + (st.routes.getD ri [] : Multiset ℕ) := by
          rw [e3]; abel
  have key2 := add_right_cancel key
  exact add_right_cancel key2

theorem savStep_flatten (cap : Option K) (st : SavState K) (t : K × ℕ × ℕ) :
    ((savStep cap st t).routes.flatten : Multiset ℕ)
      = (st.routes.flatten : Multiset ℕ) := by
  rcases savStep_characterization cap st t with h | ⟨ri, rj, nr, -, -, hne, hri, hrj, -, hperm, he⟩
  · rw [h]
  · rw [he]
    exact savMerge_flatten st ri rj _ _ nr hne hri hrj hperm

theorem foldl_savStep_flatten (cap : Option K) :
    ∀ (l : List (K × ℕ × ℕ)) (st : SavState K),
      ((l.foldl (savStep cap) st).routes.flatten : Multiset ℕ)
        = (st.routes.flatten : Multiset ℕ) := by
  intro l
  induction l with
  | nil => intro st; rfl
  | cons t ts ih =>
    intro st
    rw [List.foldl_cons, ih (savStep cap st t), savStep_flatten]

theorem flatten_map_singleton (l : List ℕ) : (l.map (fun i => [i])).flatten = l := by
  induction l with
  | nil => rfl
  | cons a t ih => simp [ih]

theorem flatten_filter_ne_nil (l : List (List ℕ)) :
    (l.filter (fun r => !r.isEmpty)).flatten = l.flatten := by
  induction l with
  | nil => rfl
  | cons r t ih =>
    by_cases h : r = []
    · subst h; simpa using ih
    · rw [List.filter_cons_of_pos (by simpa using h)]
      simp [ih]

theorem savingsRepair_flatten (l : List (List ℕ)) (maxV : ℕ) :
    (savingsRepair l maxV).flatten = l.flatten := by
  rw [savingsRepair]
  split_ifs with h
  · rw [List.flatten_append]
    simp only [List.flatten_cons, List.flatten_nil, List.append_nil]
    rw [← List.flatten_append, List.take_append_drop]
  · rfl

theorem pyTake_append_pyDrop {α : Type} (l : List α) (k : Int) :
    pyTakeSlice l k ++ pyDropSlice l k = l := by
  rw [pyTakeSlice, pyDropSlice, List.take_append_drop]

theorem rfcsRepair_flatten (l : List (List ℕ)) (maxV : ℕ) :
    (rfcsRepair l maxV).flatten = l.flatten := by
  rw [rfcsRepair]
  split_ifs with h
  · rw [List.flatten_append]
    simp only [List.flatten_cons, List.flatten_nil, List.append_nil]
    rw [← List.flatten_append, pyTake_append_pyDrop]
  · rfl

theorem basic_data_ok (data : ProblemData K) (depot : Point K) (coords : List (Point K))
    (demands : List K) (cap : Option K)
    (h : basic_data data = Except.ok (depot, coords, demands, cap)) :
    coords = data.clients.map (fun c => (c.x, c.y))
      ∧ demands = data.clients.map (fun c => c.delivery.headD 0) := by
  cases hd : data.depots with
  | nil => rw [basic_data, hd] at h; exact absurd h (by simp)
  | cons d ds =>
    cases hv : data.vehicleTypes with
    | nil => rw [basic_data, hd, hv] at h; exact absurd h (by simp)
    | cons v vs =>
      rw [basic_data, hd, hv] at h
      have := Except.ok.inj h
      exact ⟨(congrArg (fun p => p.2.1) this).symm, (congrArg (fun p => p.2.2.1) this).symm⟩

theorem insertion_ok (dist : Point K → Point K → K) (data : ProblemData K) (depot : Point K)
    (coords : List (Point K)) (demands : List K) (cap : Option K)
    (hbd : basic_data data = Except.ok (depot, coords, demands, cap))
    (rs : List (List ℕ)) (h : insertion dist data = Except.ok rs) :
    ∃ first, pymin (fun j => dist depot (coords.getD j depot))
        (List.range coords.length) = some first
      ∧ rs = capSplit demands cap (insertLoop dist depot coords
          ((List.range coords.length).erase first).length [first]
          ((List.range coords.length).erase first)) := by
  unfold insertion at h
  rw [hbd] at h
  dsimp only at h
  cases hmin : pymin (fun j => dist depot (coords.getD j depot))
      (List.range coords.length) with
  | none => rw [hmin] at h; dsimp only at h; exact absurd h (by simp)
  | some first =>
    rw [hmin] at h
    dsimp only at h
    exact ⟨first, rfl, (Except.ok.inj h).symm⟩

theorem insertion_err (dist : Point K → Point K → K) (data : ProblemData K) (depot : Point K)
    (coords : List (Point K)) (demands : List K) (cap : Option K)
    (hbd : basic_data data = Except.ok (depot, coords, demands, cap))
    (hnil : coords = []) :
    insertion dist data = Except.error "min() arg is an empty sequence" := by
  unfold insertion
  rw [hbd, hnil]
  rfl

theorem giantTour_ok (dist : Point K → Point K → K) (depot : Point K) (coords : List (Point K))
    (tour : List ℕ) (h : giantTour dist depot coords = some tour) :
    ∃ first, pymin (fun j => dist depot (coords.getD j ((0 : K), (0 : K))))
        (List.range coords.length) = some first
      ∧ tour = first :: nnLoop dist coords ((List.range coords.length).erase first).length
          first ((List.range coords.length).erase first) := by
  unfold giantTour at h
  dsimp only at h
  cases hmin : pymin (fun j => dist depot (coords.getD j ((0 : K), (0 : K))))
      (List.range coords.length) with
  | none => rw [hmin] at h; dsimp only at h; exact absurd h (by simp)
  | some first =>
    rw [hmin] at h
    dsimp only at h
    exact ⟨first, rfl, (Option.some.inj h).symm⟩

theorem rfcsNatural_ok (dist : Point K → Point K → K) (data : ProblemData K) (depot : Point K)
    (coords : List (Point K)) (demands : List K) (cap : Option K)
    (hbd : basic_data data = Except.ok (depot, coords, demands, cap))
    (nat : List (List ℕ)) (h : rfcsNaturalRoutes dist data = Except.ok nat) :
    ∃ tour, giantTour dist depot coords = some tour
      ∧ nat = capSplit demands cap tour := by
  unfold rfcsNaturalRoutes at h
  rw [hbd] at h
  dsimp only at h
  cases htour : giantTour dist depot coords with
  | none => rw [htour] at h; dsimp only at h; exact absurd h (by simp)
  | some tour =>
    rw [htour] at h
    dsimp only at h
    exact ⟨tour, rfl, (Except.ok.inj h).symm⟩

theorem rfcs_ok (dist : Point K → Point K → K) (data : ProblemData K) (rs : List (List ℕ))
    (h : route_first_cluster_second dist data = Except.ok rs) :
    ∃ nat, rfcsNaturalRoutes dist data = Except.ok nat
      ∧ rs = rfcsRepair nat data.num_vehicles := by
  unfold route_first_cluster_second at h
  cases hn : rfcsNaturalRoutes dist data with
  | error e => rw [hn] at h; dsimp only at h; exact absurd h (by simp)
  | ok nat =>
    rw [hn] at h
    dsimp only at h
    exact ⟨nat, rfl, (Except.ok.inj h).symm⟩

theorem rfcs_of_natural (dist : Point K → Point K → K) (data : ProblemData K)
    (nat : List (List ℕ)) (h : rfcsNaturalRoutes dist data = Except.ok nat) :
    route_first_cluster_second dist data = Except.ok (rfcsRepair nat data.num_vehicles) := by
  unfold route_first_cluster_second
  rw [h]

theorem savingsNatural_ok (dist : Point K → Point K → K) (data : ProblemData K) (depot : Point K)
    (coords : List (Point K)) (demands : List K) (cap : Option K)
    (hbd : basic_data data = Except.ok (depot, coords, demands, cap))
    (nat : List (List ℕ)) (h : savingsNaturalRoutes dist data = Except.ok nat) :
    savingsCheck demands cap = none
      ∧ nat = (savingsMergePhase dist depot coords demands cap).routes.filter
          (fun r => !r.isEmpty) := by
  unfold savingsNaturalRoutes at h
  rw [hbd] at h
  dsimp only at h
  cases hchk : savingsCheck demands cap with
  | some c => rw [hchk] at h; dsimp only at h; exact absurd h (by simp)
  | none =>
    rw [hchk] at h
    dsimp only at h
    exact ⟨rfl, (Except.ok.inj h).symm⟩

theorem savings_ok (dist : Point K → Point K → K) (data : ProblemData K) (rs : List (List ℕ))
    (h : savings dist data = Except.ok rs) :
    ∃ nat, savingsNaturalRoutes dist data = Except.ok nat
      ∧ rs = savingsRepair nat data.num_vehicles := by
  unfold savings at h
  cases hn : savingsNaturalRoutes dist data with
  | error e => rw [hn] at h; dsimp only at h; exact absurd h (by simp)
  | ok nat =>
    rw [hn] at h
    dsimp only at h
    exact ⟨nat, rfl, (Except.ok.inj h).symm⟩

theorem savings_of_natural (dist : Point K → Point K → K) (data : ProblemData K)
    (nat : List (List ℕ)) (h : savingsNaturalRoutes dist data = Except.ok nat) :
    savings dist data = Except.ok (savingsRepair nat data.num_vehicles) := by
  unfold savings
  rw [h]

theorem rfcsRepair_length_le (l : List (List ℕ)) (maxV : ℕ) (h : 0 < maxV) :
    (rfcsRepair l maxV).length ≤ maxV := by
  rw [rfcsRepair]
  split_ifs with hg
  · rw [pyTakeSlice]
    have hneg : ¬ ((maxV : Int) - 1 < 0) := by omega
    rw [if_neg hneg]
    have ht : ((maxV : Int) - 1).toNat = maxV - 1 := by omega
    rw [ht]
    simp only [List.length_append, List.length_take, List.length_cons, List.length_nil]
    omega
  · omega

theorem savingsRepair_length_le (l : List (List ℕ)) (maxV : ℕ) (h : 0 < maxV) :
    (savingsRepair l maxV).length ≤ maxV := by
  rw [savingsRepair]
  split_ifs with hg
  · simp only [List.length_append, List.length_take, List.length_cons, List.length_nil]
    omega
  · rcases not_and_or.mp hg with hg | hg
    · omega
    · omega

theorem rfcsRepair_overflow (l : List (List ℕ)) (maxV : ℕ) (h0 : 0 < maxV)
    (hlen : l.length > maxV) :
    rfcsRepair l maxV = l.take (maxV - 1) ++ [(l.drop (maxV - 1)).flatten] := by
  rw [rfcsRepair, if_pos hlen, pyTakeSlice, pyDropSlice]
  have hneg : ¬ ((maxV : Int) - 1 < 0) := by omega
  rw [if_neg hneg]
  have ht : ((maxV : Int) - 1).toNat = maxV - 1 := by omega
  rw [ht]

theorem savingsRepair_overflow (l : List (List ℕ)) (maxV : ℕ) (h0 : 0 < maxV)
    (hlen : l.length > maxV) :
    savingsRepair l maxV = l.take (maxV - 1) ++ [(l.drop (maxV - 1)).flatten] := by
  rw [savingsRepair, if_pos ⟨h0, hlen⟩]

theorem insertion_order_perm (dist : Point K → Point K → K) (depot : Point K)
    (coords : List (Point K)) (first : ℕ)
    (hfirst : first ∈ List.range coords.length) :
    (insertLoop dist depot coords ((List.range coords.length).erase first).length [first]
        ((List.range coords.length).erase first)).Perm (List.range coords.length) := by
  refine (insertLoop_perm dist depot coords _ _ _ rfl).trans ?_
  exact (List.perm_cons_erase hfirst).symm

theorem giantTour_perm (dist : Point K → Point K → K) (depot : Point K) (coords : List (Point K))
    (tour : List ℕ) (h : giantTour dist depot coords = some tour) :
    tour.Perm (List.range coords.length) := by
  obtain ⟨first, hmin, rfl⟩ := giantTour_ok dist depot coords tour h
  have hfirst : first ∈ List.range coords.length := pymin_mem _ _ _ hmin
  refine ((nnLoop_perm dist coords _ _ _ rfl).cons first).trans ?_
  exact (List.perm_cons_erase hfirst).symm

/-- C1, counterexample: on `dataA` (two unit-demand clients, capacity 1,
`max_vehicles = 1`), the insertion builder returns two routes, exceeding
the declared vehicle count: `insertion` performs no fleet-size repair. -/
theorem claim_C1_counterexample :
    insertion distZero dataA = Except.ok [[1], [0]]
      ∧ 0 < dataA.num_vehicles
      ∧ ¬ ([[1], [0]] : List (List ℕ)).length ≤ dataA.num_vehicles := by
  refine ⟨by decide, by decide, by decide⟩

/-- C1 (amended): when `max_vehicles > 0`, the route partitions returned
by `route_first_cluster_second` and by `savings` have at most
`max_vehicles` routes; `insertion` applies no fleet-size repair and can
exceed the bound. -/
theorem claim_C1 (dist : Point K → Point K → K) (data : ProblemData K)
    (h : 0 < data.num_vehicles) :
    (∀ rs, route_first_cluster_second dist data = Except.ok rs →
        rs.length ≤ data.num_vehicles)
    ∧ (∀ rs, savings dist data = Except.ok rs → rs.length ≤ data.num_vehicles) := by
  constructor
  · intro rs hrs
    obtain ⟨nat, -, rfl⟩ := rfcs_ok dist data rs hrs
    exact rfcsRepair_length_le nat data.num_vehicles h
  · intro rs hrs
    obtain ⟨nat, -, rfl⟩ := savings_ok dist data rs hrs
    exact savingsRepair_length_le nat data.num_vehicles h

theorem claim_C1_witness :
    ([[0], [1, 2]] : List (List ℕ)).length ≤ dataB.num_vehicles :=
  (claim_C1 distLine dataB (by decide)).2 [[0], [1, 2]] (by decide)

/-- C2: whenever a builder returns normally, the client indices of its
routes form the full index multiset `{0, ..., n-1}` with each index
exactly once (no duplicates, no omissions), for all three builders. -/
theorem claim_C2 (dist : Point K → Point K → K) (data : ProblemData K) (depot : Point K)
    (coords : List (Point K)) (demands : List K) (cap : Option K)
    (hbd : basic_data data = Except.ok (depot, coords, demands, cap)) :
    (∀ rs, insertion dist data = Except.ok rs →
        (rs.flatten : Multiset ℕ) = ((List.range data.clients.length : List ℕ) : Multiset ℕ))
    ∧ (∀ rs, route_first_cluster_second dist data = Except.ok rs →
        (rs.flatten : Multiset ℕ) = ((List.range data.clients.length : List ℕ) : Multiset ℕ))
    ∧ (∀ rs, savings dist data = Except.ok rs →
        (rs.flatten : Multiset ℕ) = ((List.range data.clients.length : List ℕ) : Multiset ℕ)) := by
  have hlen : coords.length = data.clients.length := by
    rw [(basic_data_ok data depot coords demands cap hbd).1, List.length_map]
  refine ⟨?_, ?_, ?_⟩
  · intro rs hrs
    obtain ⟨first, hmin, rfl⟩ := insertion_ok dist data depot coords demands cap hbd rs hrs
    rw [capSplit_flatten]
    rw [← hlen]
    exact Multiset.coe_eq_coe.mpr
      (insertion_order_perm dist depot coords first (pymin_mem _ _ _ hmin))
  · intro rs hrs
    obtain ⟨nat, hnat, rfl⟩ := rfcs_ok dist data rs hrs
    obtain ⟨tour, htour, rfl⟩ := rfcsNatural_ok dist data depot coords demands cap hbd nat hnat
    rw [rfcsRepair_flatten, capSplit_flatten, ← hlen]
    exact Multiset.coe_eq_coe.mpr (giantTour_perm dist depot coords tour htour)
  · intro rs hrs
    obtain ⟨nat, hnat, rfl⟩ := savings_ok dist data rs hrs
    obtain ⟨-, rfl⟩ := savingsNatural_ok dist data depot coords demands cap hbd nat hnat
    rw [savingsRepair_flatten, flatten_filter_ne_nil]
    rw [show (savingsMergePhase dist depot coords demands cap) =
        (sortedSavings (savingsList dist depot coords)).foldl (savStep cap)
          (savingsInit demands coords.length) from rfl]
    rw [foldl_savStep_flatten]
    rw [show (savingsInit demands coords.length).routes
        = (List.range coords.length).map (fun i => [i]) from rfl]
    rw [flatten_map_singleton, hlen]

theorem claim_C2_witness :
    ((([[0], [1, 2]] : List (List ℕ)).flatten : Multiset ℕ)
      = ((List.range dataB.clients.length : List ℕ) : Multiset ℕ)) :=
  (claim_C2 distLine dataB ((0 : ℤ), (0 : ℤ))
      [((1 : ℤ), (0 : ℤ)), ((2 : ℤ), (0 : ℤ)), ((3 : ℤ), (0 : ℤ))]
      [5, 5, 5] (some 5) (by decide)).2.2 [[0], [1, 2]] (by decide)

/-- C5: in `route_first_cluster_second` and `savings`, when the natural
route count exceeds `max_vehicles > 0`, the output is the first
`max_vehicles - 1` natural routes unchanged followed by the in-order
concatenation of the remaining natural routes, and has exactly
`max_vehicles` routes. -/
theorem claim_C5 (dist : Point K → Point K → K) (data : ProblemData K)
    (h0 : 0 < data.num_vehicles) :
    (∀ nat, rfcsNaturalRoutes dist data = Except.ok nat →
      nat.length > data.num_vehicles →
      route_first_cluster_second dist data
          = Except.ok (nat.take (data.num_vehicles - 1)
              ++ [(nat.drop (data.num_vehicles - 1)).flatten])
        ∧ (nat.take (data.num_vehicles - 1)
            ++ [(nat.drop (data.num_vehicles - 1)).flatten]).length = data.num_vehicles)
    ∧ (∀ nat, savingsNaturalRoutes dist data = Except.ok nat →
      nat.length > data.num_vehicles →
      savings dist data
          = Except.ok (nat.take (data.num_vehicles - 1)
              ++ [(nat.drop (data.num_vehicles - 1)).flatten])
        ∧ (nat.take (data.num_vehicles - 1)
            ++ [(nat.drop (data.num_vehicles - 1)).flatten]).length = data.num_vehicles) := by
  constructor
  · intro nat hnat hover
    constructor
    · rw [rfcs_of_natural dist data nat hnat,
        rfcsRepair_overflow nat data.num_vehicles h0 hover]
    · simp only [List.length_append, List.length_take, List.length_cons, List.length_nil]
      omega
  · intro nat hnat hover
    constructor
    · rw [savings_of_natural dist data nat hnat,
        savingsRepair_overflow nat data.num_vehicles h0 hover]
    · simp only [List.length_append, List.length_take, List.length_cons, List.length_nil]
      omega

theorem claim_C5_witness :
    route_first_cluster_second distLine dataB
        = Except.ok (([[0], [1], [2]] : List (List ℕ)).take (dataB.num_vehicles - 1)
            ++ [(([[0], [1], [2]] : List (List ℕ)).drop (dataB.num_vehicles - 1)).flatten]) :=
  ((claim_C5 distLine dataB (by decide)).1 [[0], [1], [2]] (by decide) (by decide)).1

theorem savingsCheck_none_iff (demands : List K) (cap : Option K) :
    savingsCheck demands cap = none ↔ ∀ d ∈ demands, ¬ gtCap d cap = true := by
  rw [savingsCheck, List.find?_eq_none]
  constructor
  · intro h d hd
    obtain ⟨c, hc, rfl⟩ := List.mem_iff_getElem.mp hd
    have := h c (List.mem_range.mpr hc)
    rw [List.getD_eq_getElem?_getD, List.getElem?_eq_getElem hc] at this
    simpa using this
  · intro h c hc
    have hcl : c < demands.length := List.mem_range.mp hc
    rw [List.getD_eq_getElem?_getD, List.getElem?_eq_getElem hcl]
    exact fun hcontra => h _ (List.getElem_mem hcl) (by simpa using hcontra)

theorem savingsNatural_err (dist : Point K → Point K → K) (data : ProblemData K)
    (depot : Point K) (coords : List (Point K)) (demands : List K) (cap : Option K)
    (hbd : basic_data data = Except.ok (depot, coords, demands, cap)) (c : ℕ)
    (hchk : savingsCheck demands cap = some c) :
    savingsNaturalRoutes dist data
      = Except.error ("Cliente " ++ toString c ++ " tem demanda maior que capacidade.") := by
  unfold savingsNaturalRoutes
  rw [hbd]
  dsimp only
  rw [hchk]

theorem savingsNatural_ok_of_check (dist : Point K → Point K → K) (data : ProblemData K)
    (depot : Point K) (coords : List (Point K)) (demands : List K) (cap : Option K)
    (hbd : basic_data data = Except.ok (depot, coords, demands, cap))
    (hchk : savingsCheck demands cap = none) :
    savingsNaturalRoutes dist data
      = Except.ok ((savingsMergePhase dist depot coords demands cap).routes.filter
          (fun r => !r.isEmpty)) := by
  unfold savingsNaturalRoutes
  rw [hbd]
  dsimp only
  rw [hchk]

/-- C3: given a well-formed instance, the savings builder fails if and
only if some client's demand strictly exceeds the capacity; the failure
and its message do not depend on the distance function (the only
distance-dependent stage is the merge loop, so the error is raised
before any merge is attempted); and when no demand exceeds the
capacity, the builder returns a partition without raising. -/
theorem claim_C3 (dist : Point K → Point K → K) (data : ProblemData K)
    (depot : Point K) (coords : List (Point K)) (demands : List K) (cap : Option K)
    (hbd : basic_data data = Except.ok (depot, coords, demands, cap)) :
    ((∃ e, savings dist data = Except.error e) ↔ ∃ d ∈ demands, gtCap d cap = true)
    ∧ (∀ (dist2 : Point K → Point K → K) (e : String),
        savings dist data = Except.error e → savings dist2 data = Except.error e)
    ∧ ((∀ d ∈ demands, ¬ gtCap d cap = true) →
        ∃ rs, savings dist data = Except.ok rs) := by
  have herr : ∀ (dist1 : Point K → Point K → K) (c : ℕ),
      savingsCheck demands cap = some c →
      savings dist1 data
        = Except.error ("Cliente " ++ toString c ++ " tem demanda maior que capacidade.") := by
    intro dist1 c hchk
    unfold savings
    rw [savingsNatural_err dist1 data depot coords demands cap hbd c hchk]
  have hok : ∀ (dist1 : Point K → Point K → K),
      savingsCheck demands cap = none → ∃ rs, savings dist1 data = Except.ok rs := by
    intro dist1 hchk
    exact ⟨_, savings_of_natural dist1 data _
      (savingsNatural_ok_of_check dist1 data depot coords demands cap hbd hchk)⟩
  refine ⟨⟨?_, ?_⟩, ?_, ?_⟩
  · intro ⟨e, he⟩
    by_contra hno
    push_neg at hno
    have hchk : savingsCheck demands cap = none :=
      (savingsCheck_none_iff demands cap).mpr (by
        intro d hd
        simpa using hno d hd)
    obtain ⟨rs, hrs⟩ := hok dist hchk
    rw [hrs] at he
    exact Except.noConfusion he
  · intro ⟨d, hd, hgt⟩
    cases hchk : savingsCheck demands cap with
    | none =>
      exact absurd hgt ((savingsCheck_none_iff demands cap).mp hchk d hd)
    | some c =>
      exact ⟨_, herr dist c hchk⟩
  · intro dist2 e he
    cases hchk : savingsCheck demands cap with
    | none =>
      obtain ⟨rs, hrs⟩ := hok dist hchk
      rw [hrs] at he
      exact Except.noConfusion he
    | some c =>
      have h1 := herr dist c hchk
      have h2 := herr dist2 c hchk
      rw [h1] at he
      rw [h2, Except.error.inj he]
  · intro hall
    exact hok dist ((savingsCheck_none_iff demands cap).mpr hall)

theorem claim_C3_witness : ∃ e, savings distLine dataC = Except.error e :=
  (claim_C3 distLine dataC ((0 : ℤ), (0 : ℤ)) [((1 : ℤ), (0 : ℤ))] [20] (some 10)
    (by decide)).1.mpr ⟨20, by decide, by decide⟩

theorem savingsRepair_nil (maxV : ℕ) : savingsRepair ([] : List (List ℕ)) maxV = [] := by
  rw [savingsRepair, if_neg]
  rintro ⟨-, h2⟩
  simp at h2

theorem rfcsNatural_err (dist : Point K → Point K → K) (data : ProblemData K)
    (depot : Point K) (demands : List K) (cap : Option K)
    (hbd : basic_data data = Except.ok (depot, [], demands, cap)) :
    rfcsNaturalRoutes dist data = Except.error "min() arg is an empty sequence" := by
  unfold rfcsNaturalRoutes
  rw [hbd]
  rfl

theorem rfcs_err_of_natural (dist : Point K → Point K → K) (data : ProblemData K)
    (e : String) (h : rfcsNaturalRoutes dist data = Except.error e) :
    route_first_cluster_second dist data = Except.error e := by
  unfold route_first_cluster_second
  rw [h]

/-- C10: on an instance with a depot but zero clients, `insertion` and
`route_first_cluster_second` fail (Python's `min` over the empty client
set raises), while `savings` returns the empty route partition. -/
theorem claim_C10 (dist : Point K → Point K → K) (data : ProblemData K)
    (depot : Point K) (demands : List K) (cap : Option K)
    (hbd : basic_data data = Except.ok (depot, [], demands, cap)) :
    (∃ e, insertion dist data = Except.error e)
    ∧ (∃ e, route_first_cluster_second dist data = Except.error e)
    ∧ savings dist data = Except.ok [] := by
  refine ⟨⟨_, insertion_err dist data depot [] demands cap hbd rfl⟩,
    ⟨_, rfcs_err_of_natural dist data _ (rfcsNatural_err dist data depot demands cap hbd)⟩, ?_⟩
  obtain ⟨hc1, hc2⟩ := basic_data_ok data depot [] demands cap hbd
  have hcl : data.clients = [] := by
    cases hcl : data.clients with
    | nil => rfl
    | cons c cs => rw [hcl] at hc1; exact absurd hc1 (by simp)
  have hdem : demands = [] := by rw [hc2, hcl]; rfl
  subst hdem
  have hnat : savingsNaturalRoutes dist data = Except.ok [] := by
    unfold savingsNaturalRoutes
    rw [hbd]
    rfl
  rw [savings_of_natural dist data [] hnat, savingsRepair_nil]

theorem claim_C10_witness :
    (∃ e, insertion distLine dataD = Except.error e)
    ∧ (∃ e, route_first_cluster_second distLine dataD = Except.error e)
    ∧ savings distLine dataD = Except.ok [] :=
  claim_C10 distLine dataD ((0 : ℤ), (0 : ℤ)) [] (some 10) (by decide)

theorem insertion_of_min (dist : Point K → Point K → K) (data : ProblemData K)
    (depot : Point K) (coords : List (Point K)) (demands : List K) (cap : Option K)
    (first : ℕ)
    (hbd : basic_data data = Except.ok (depot, coords, demands, cap))
    (hmin : pymin (fun j => dist depot (coords.getD j depot))
        (List.range coords.length) = some first) :
    insertion dist data = Except.ok (capSplit demands cap
      (insertLoop dist depot coords ((List.range coords.length).erase first).length [first]
        ((List.range coords.length).erase first))) := by
  unfold insertion
  rw [hbd]
  dsimp only
  rw [hmin]

theorem giantTour_of_min (dist : Point K → Point K → K) (depot : Point K)
    (coords : List (Point K)) (first : ℕ)
    (hmin : pymin (fun j => dist depot (coords.getD j ((0 : K), (0 : K))))
        (List.range coords.length) = some first) :
    giantTour dist depot coords
      = some (first :: nnLoop dist coords ((List.range coords.length).erase first).length
          first ((List.range coords.length).erase first)) := by
  unfold giantTour
  dsimp only
  rw [hmin]

theorem rfcsNatural_of_tour (dist : Point K → Point K → K) (data : ProblemData K)
    (depot : Point K) (coords : List (Point K)) (demands : List K) (cap : Option K)
    (tour : List ℕ)
    (hbd : basic_data data = Except.ok (depot, coords, demands, cap))
    (htour : giantTour dist depot coords = some tour) :
    rfcsNaturalRoutes dist data = Except.ok (capSplit demands cap tour) := by
  unfold rfcsNaturalRoutes
  rw [hbd]
  dsimp only
  rw [htour]

theorem rfcsRepair_singleton (t : List ℕ) (nv : ℕ) : rfcsRepair [t] nv = [t] := by
  rw [rfcsRepair]
  split_ifs with h
  · have hnv : nv = 0 := by simpa using h
    subst hnv
    rw [pyTakeSlice, pyDropSlice]
    have h0 : (((0 : ℕ) : Int) - 1 < 0) := by decide
    rw [if_pos h0]
    have h1 : ((([t] : List (List ℕ)).length : Int) + (((0 : ℕ) : Int) - 1)).toNat = 0 := by
      simp
    rw [h1]
    simp
  · rfl

/-- C9: when the instance declares no capacity dimension (capacity is
infinite), `insertion` and `route_first_cluster_second` each return a
single route containing every client: the capacity split never closes a
route early. -/
theorem claim_C9 (dist : Point K → Point K → K) (data : ProblemData K)
    (depot : Point K) (coords : List (Point K)) (demands : List K)
    (hbd : basic_data data = Except.ok (depot, coords, demands, none))
    (hn : 0 < coords.length) :
    (∃ ord, insertion dist data = Except.ok [ord]
      ∧ (ord : Multiset ℕ) = ((List.range data.clients.length : List ℕ) : Multiset ℕ))
    ∧ (∃ tour, route_first_cluster_second dist data = Except.ok [tour]
      ∧ (tour : Multiset ℕ) = ((List.range data.clients.length : List ℕ) : Multiset ℕ)) := by
  have hlen : coords.length = data.clients.length := by
    rw [(basic_data_ok data depot coords demands none hbd).1, List.length_map]
  have hrange : List.range coords.length ≠ [] := by
    intro hc
    rw [List.range_eq_nil] at hc
    omega
  constructor
  · cases hmin : pymin (fun j => dist depot (coords.getD j depot))
        (List.range coords.length) with
    | none => exact absurd ((pymin_eq_none _ _).mp hmin) hrange
    | some first =>
      have hperm := insertion_order_perm dist depot coords first (pymin_mem _ _ _ hmin)
      have hord : insertLoop dist depot coords ((List.range coords.length).erase first).length
          [first] ((List.range coords.length).erase first) ≠ [] := by
        intro hc
        rw [hc] at hperm
        have := hperm.length_eq
        simp at this
        omega
      rw [insertion_of_min dist data depot coords demands none first hbd hmin,
        capSplit_none demands _ hord]
      exact ⟨_, rfl, by rw [← hlen]; exact Multiset.coe_eq_coe.mpr hperm⟩
  · cases hmin : pymin (fun j => dist depot (coords.getD j ((0 : K), (0 : K))))
        (List.range coords.length) with
    | none => exact absurd ((pymin_eq_none _ _).mp hmin) hrange
    | some first =>
      have htour := giantTour_of_min dist depot coords first hmin
      have hperm := giantTour_perm dist depot coords _ htour
      rw [rfcs_of_natural dist data _
          (rfcsNatural_of_tour dist data depot coords demands none _ hbd htour),
        capSplit_none demands _ (List.cons_ne_nil _ _), rfcsRepair_singleton]
      exact ⟨_, rfl, by rw [← hlen]; exact Multiset.coe_eq_coe.mpr hperm⟩

theorem claim_C9_witness :
    (∃ ord, insertion distLine dataE = Except.ok [ord]
      ∧ (ord : Multiset ℕ) = ((List.range dataE.clients.length : List ℕ) : Multiset ℕ))
    ∧ (∃ tour, route_first_cluster_second distLine dataE = Except.ok [tour]
      ∧ (tour : Multiset ℕ) = ((List.range dataE.clients.length : List ℕ) : Multiset ℕ)) :=
  claim_C9 distLine dataE ((0 : ℤ), (0 : ℤ))
    [((1 : ℤ), (0 : ℤ)), ((5 : ℤ), (0 : ℤ)), ((3 : ℤ), (0 : ℤ))] [5, 5, 5]
    (by decide) (by decide)

theorem routeLoad_append (demands : List K) (r1 r2 : List ℕ) :
    routeLoad demands (r1 ++ r2) = routeLoad demands r1 + routeLoad demands r2 := by
  simp [routeLoad]

theorem routeLoad_perm (demands : List K) {r1 r2 : List ℕ} (h : r1.Perm r2) :
    routeLoad demands r1 = routeLoad demands r2 :=
  (h.map _).sum_eq

theorem getD_map_range {α : Type} (f : ℕ → α) (n k : ℕ) (d : α) :
    ((List.range n).map f).getD k d = if k < n then f k else d := by
  rw [List.getD_eq_getElem?_getD]
  by_cases h : k < n
  · rw [List.getElem?_eq_getElem (by simpa using h)]
    simp [h]
  · rw [List.getElem?_eq_none (by simpa using not_lt.mp h)]
    simp [h]

theorem savingsInit_loadInv (demands : List K) (cap : Option K) (n : ℕ)
    (hlen : demands.length = n)
    (hchk : savingsCheck demands cap = none) :
    LoadInv demands cap (savingsInit demands n) := by
  constructor
  · simp [savingsInit]
  · intro k
    rw [savingsInit]
    dsimp only
    rw [getD_map_range, getD_map_range]
    by_cases h : k < n
    · simp only [if_pos h]
      refine ⟨by simp [routeLoad], fun _ => ?_⟩
      have hk : k < demands.length := by omega
      have hmem : demands.getD k 0 ∈ demands := by
        rw [List.getD_eq_getElem?_getD, List.getElem?_eq_getElem hk]
        exact List.getElem_mem hk
      exact (savingsCheck_none_iff demands cap).mp hchk _ hmem
    · simp only [if_neg h]
      exact ⟨by simp [routeLoad], fun hc => absurd rfl hc⟩

theorem savMerge_loadInv (demands : List K) (cap : Option K) (st : SavState K)
    (ri rj : ℕ) (new_route : List ℕ)
    (hInv : LoadInv demands cap st) (hne : ri ≠ rj)
    (hri : st.routes.getD ri [] ≠ []) (hrj : st.routes.getD rj [] ≠ [])
    (hcap : ¬ gtCap (st.route_loads.getD ri 0 + st.route_loads.getD rj 0) cap = true)
    (hperm : new_route.Perm (st.routes.getD ri [] ++ st.routes.getD rj [])) :
    LoadInv demands cap (savMerge st ri rj (st.route_loads.getD ri 0)
      (st.route_loads.getD rj 0) (st.routes.getD rj []) new_route) := by
  obtain ⟨hlen, hInv2⟩ := hInv
  have hriR : ri < st.routes.length := getD_ne_default_lt _ _ _ hri
  have hrjR : rj < st.routes.length := getD_ne_default_lt _ _ _ hrj
  have hriL : ri < st.route_loads.length := by omega
  have hrjL : rj < st.route_loads.length := by omega
  constructor
  · simp [savMerge, hlen]
  · intro k
    rw [savMerge]
    dsimp only
    by_cases hkj : k = rj
    · subst hkj
      rw [getD_set_self _ _ _ _ (by simpa using hrjL),
        getD_set_self _ _ _ _ (by simpa using hrjR)]
      exact ⟨by simp [routeLoad], fun hc => absurd rfl hc⟩
    · rw [getD_set_ne _ _ _ _ _ (fun hc => hkj hc.symm),
        getD_set_ne _ _ _ _ _ (fun hc => hkj hc.symm)]
      by_cases hki : k = ri
      · subst hki
        rw [getD_set_self _ _ _ _ hriL, getD_set_self _ _ _ _ hriR]
        constructor
        · rw [routeLoad_perm demands hperm, routeLoad_append,
            (hInv2 k).1, (hInv2 rj).1]
        · intro _
          exact hcap
      · rw [getD_set_ne _ _ _ _ _ (fun hc => hki hc.symm),
          getD_set_ne _ _ _ _ _ (fun hc => hki hc.symm)]
        exact hInv2 k

theorem savStep_loadInv (demands : List K) (cap : Option K) (st : SavState K)
    (t : K × ℕ × ℕ) (hInv : LoadInv demands cap st) :
    LoadInv demands cap (savStep cap st t) := by
  rcases savStep_characterization cap st t with h | ⟨ri, rj, nr, -, -, hne, hri, hrj, hcap, hperm, he⟩
  · rw [h]; exact hInv
  · rw [he]
    exact savMerge_loadInv demands cap st ri rj nr hInv hne hri hrj hcap hperm

theorem foldl_savStep_loadInv (demands : List K) (cap : Option K) :
    ∀ (l : List (K × ℕ × ℕ)) (st : SavState K), LoadInv demands cap st →
      LoadInv demands cap (l.foldl (savStep cap) st) := by
  intro l
  induction l with
  | nil => intro st h; exact h
  | cons t ts ih =>
    intro st h
    rw [List.foldl_cons]
    exact ih _ (savStep_loadInv demands cap st t h)

theorem loadInv_mem_fit (demands : List K) (cap : Option K) (st : SavState K)
    (hInv : LoadInv demands cap st) :
    ∀ r ∈ st.routes, r ≠ [] → ¬ gtCap (routeLoad demands r) cap = true := by
  intro r hr hne
  obtain ⟨k, hk, hrk⟩ := List.mem_iff_getElem.mp hr
  have hgd : st.routes.getD k [] = r := by
    rw [List.getD_eq_getElem?_getD, List.getElem?_eq_getElem hk]
    exact hrk
  have hfit := (hInv.2 k).2 (by rw [hgd]; exact hne)
  rw [(hInv.2 k).1, hgd] at hfit
  exact hfit

theorem savingsNatural_fit (dist : Point K → Point K → K) (data : ProblemData K)
    (depot : Point K) (coords : List (Point K)) (demands : List K) (cap : Option K)
    (hbd : basic_data data = Except.ok (depot, coords, demands, cap))
    (nat : List (List ℕ)) (hnat : savingsNaturalRoutes dist data = Except.ok nat) :
    ∀ r ∈ nat, ¬ gtCap (routeLoad demands r) cap = true := by
  obtain ⟨hchk, rfl⟩ := savingsNatural_ok dist data depot coords demands cap hbd nat hnat
  have hdl : demands.length = coords.length := by
    obtain ⟨h1, h2⟩ := basic_data_ok data depot coords demands cap hbd
    rw [h1, h2, List.length_map, List.length_map]
  have hInv : LoadInv demands cap (savingsMergePhase dist depot coords demands cap) :=
    foldl_savStep_loadInv demands cap _ _ (savingsInit_loadInv demands cap _ hdl hchk)
  intro r hr
  have hr' : r ∈ (savingsMergePhase dist depot coords demands cap).routes :=
    List.mem_of_mem_filter hr
  have hne : r ≠ [] := by
    have := List.of_mem_filter hr
    simpa using this
  exact loadInv_mem_fit demands cap _ hInv r hr' hne

/-- C7: after the savings precondition passes, the state reached after
processing any prefix of the sorted savings list has every non-empty
route within capacity (a merge that would overflow is skipped), so in
particular every route surviving to the natural partition fits, and
capacity can only be violated by the final fleet-size repair. -/
theorem claim_C7 (dist : Point K → Point K → K) (data : ProblemData K)
    (depot : Point K) (coords : List (Point K)) (demands : List K) (cap : Option K)
    (hbd : basic_data data = Except.ok (depot, coords, demands, cap))
    (hchk : savingsCheck demands cap = none) :
    (∀ pre suf, sortedSavings (savingsList dist depot coords) = pre ++ suf →
        ∀ r ∈ (pre.foldl (savStep cap) (savingsInit demands coords.length)).routes,
          r ≠ [] → ¬ gtCap (routeLoad demands r) cap = true)
    ∧ (∀ nat, savingsNaturalRoutes dist data = Except.ok nat →
        ∀ r ∈ nat, ¬ gtCap (routeLoad demands r) cap = true) := by
  have hdl : demands.length = coords.length := by
    obtain ⟨h1, h2⟩ := basic_data_ok data depot coords demands cap hbd
    rw [h1, h2, List.length_map, List.length_map]
  constructor
  · intro pre suf hdecomp
    exact loadInv_mem_fit demands cap _
      (foldl_savStep_loadInv demands cap pre _ (savingsInit_loadInv demands cap _ hdl hchk))
  · intro nat hnat
    exact savingsNatural_fit dist data depot coords demands cap hbd nat hnat

theorem claim_C7_witness :
    ¬ gtCap (routeLoad [(5 : ℤ), 5, 5] [1, 2]) (some 10) = true :=
  (claim_C7 distLine dataF ((0 : ℤ), (0 : ℤ))
      [((1 : ℤ), (0 : ℤ)), ((2 : ℤ), (0 : ℤ)), ((3 : ℤ), (0 : ℤ))] [5, 5, 5] (some 10)
      (by decide) (by decide)).2 [[0], [1, 2]] (by decide) [1, 2] (by decide)

theorem rfcsRepair_dropLast_sublist (l : List (List ℕ)) (nv : ℕ) :
    (rfcsRepair l nv).dropLast.Sublist l := by
  rw [rfcsRepair]
  split_ifs with h
  · rw [List.dropLast_concat, pyTakeSlice]
    exact List.take_sublist _ _
  · exact List.dropLast_sublist l

theorem savingsRepair_dropLast_sublist (l : List (List ℕ)) (nv : ℕ) :
    (savingsRepair l nv).dropLast.Sublist l := by
  rw [savingsRepair]
  split_ifs with h
  · rw [List.dropLast_concat]
    exact List.take_sublist _ _
  · exact List.dropLast_sublist l

/-- C4: every route of the insertion builder's output and of the
route-first-cluster-second builder's natural (pre-repair) partition
either fits the capacity or is a lone client whose own demand exceeds
the capacity; every non-final route of the repaired
route-first-cluster-second output likewise; every route of the savings
builder's natural (pre-repair) partition fits the capacity outright —
so whenever the fleet-size repair does not run (the output equals the
natural partition, in particular when the route count is within
`max_vehicles` or `max_vehicles = 0`), every output route, the final
one included, is covered; and every non-final route of the savings
output fits the capacity outright. -/
theorem claim_C4 (dist : Point K → Point K → K) (data : ProblemData K)
    (depot : Point K) (coords : List (Point K)) (demands : List K) (cap : Option K)
    (hbd : basic_data data = Except.ok (depot, coords, demands, cap)) :
    (∀ rs, insertion dist data = Except.ok rs → ∀ r ∈ rs, routeFits demands cap r)
    ∧ (∀ nat, rfcsNaturalRoutes dist data = Except.ok nat →
        ∀ r ∈ nat, routeFits demands cap r)
    ∧ (∀ rs, route_first_cluster_second dist data = Except.ok rs →
        ∀ r ∈ rs.dropLast, routeFits demands cap r)
    ∧ (∀ nat, savingsNaturalRoutes dist data = Except.ok nat →
        ∀ r ∈ nat, ¬ gtCap (routeLoad demands r) cap = true)
    ∧ (∀ rs, savings dist data = Except.ok rs →
        ∀ r ∈ rs.dropLast, ¬ gtCap (routeLoad demands r) cap = true) := by
  refine ⟨?_, ?_, ?_, ?_, ?_⟩
  · intro rs hrs
    obtain ⟨first, -, rfl⟩ := insertion_ok dist data depot coords demands cap hbd rs hrs
    exact capSplit_fit demands cap _
  · intro nat hnat
    obtain ⟨tour, -, rfl⟩ := rfcsNatural_ok dist data depot coords demands cap hbd nat hnat
    exact capSplit_fit demands cap _
  · intro rs hrs r hr
    obtain ⟨nat, hnat, rfl⟩ := rfcs_ok dist data rs hrs
    obtain ⟨tour, -, rfl⟩ := rfcsNatural_ok dist data depot coords demands cap hbd nat hnat
    exact capSplit_fit demands cap _ r
      ((rfcsRepair_dropLast_sublist _ data.num_vehicles).subset hr)
  · intro nat hnat
    exact savingsNatural_fit dist data depot coords demands cap hbd nat hnat
  · intro rs hrs r hr
    obtain ⟨nat, hnat, rfl⟩ := savings_ok dist data rs hrs
    exact savingsNatural_fit dist data depot coords demands cap hbd nat hnat r
      ((savingsRepair_dropLast_sublist _ data.num_vehicles).subset hr)

theorem claim_C4_witness : routeFits [(1 : ℤ), 1] (some 1) [1] :=
  (claim_C4 distZero dataA ((0 : ℤ), (0 : ℤ))
      [((1 : ℤ), (0 : ℤ)), ((2 : ℤ), (0 : ℤ))] [1, 1] (some 1)
      (by decide)).1 [[1], [0]] (by decide) [1] (by decide)

theorem sublist_pair_antisym {α : Type} :
    ∀ (l : List α), l.Nodup → ∀ a b : α, [a, b].Sublist l → [b, a].Sublist l → a = b := by
  intro l
  induction l with
  | nil =>
    intro _ a b hab _
    exact absurd (List.sublist_nil.mp hab) (by simp)
  | cons x t ih =>
    intro hnd a b hab hba
    obtain ⟨hx, hndt⟩ := List.nodup_cons.mp hnd
    cases hab with
    | cons _ h =>
      cases hba with
      | cons _ h' => exact ih hndt a b h h'
      | cons₂ _ h'' =>
        exact absurd (h.subset (List.mem_cons_of_mem a (List.mem_cons_self _ []))) hx
    | cons₂ _ h =>
      cases hba with
      | cons _ h' =>
        exfalso
        have hat : x ∈ t := h'.subset (List.mem_cons_of_mem b (List.mem_cons_self x []))
        exact hx hat
      | cons₂ _ h'' => rfl

theorem pair_sublist_of_pairwise {α : Type} (Q : α → α → Prop)
    (hasym : ∀ x y, Q x y → Q y x → False)
    (l : List α) (hp : l.Pairwise Q) (a b : α) (ha : a ∈ l) (hb : b ∈ l) (hQ : Q b a) :
    [b, a].Sublist l := by
  obtain ⟨s, t, rfl⟩ := List.append_of_mem hb
  have hsplit := List.pairwise_append.mp hp
  rcases List.mem_append.mp ha with ha | ha
  · exact absurd hQ (fun hQ' => hasym a b (hsplit.2.2 a ha b (List.mem_cons_self b t)) hQ')
  · rcases List.mem_cons.mp ha with rfl | ha
    · exact absurd hQ (fun hQ' => hasym a a hQ' hQ')
    · refine List.Sublist.trans ?_ (List.sublist_append_right s (b :: t))
      exact (List.singleton_sublist.mpr ha).cons₂ b

theorem savingsList_pairwise (dist : Point K → Point K → K) (depot : Point K)
    (coords : List (Point K)) :
    (savingsList dist depot coords).Pairwise (fun a b => pairLt a.2 b.2) := by
  rw [savingsList]
  rw [List.pairwise_flatMap]
  constructor
  · intro i _
    rw [List.pairwise_map]
    refine (List.pairwise_lt_range' (i + 1) (coords.length - (i + 1)) 1 (by simp)).imp ?_
    intro j1 j2 hj
    exact Or.inr ⟨rfl, hj⟩
  · refine (List.pairwise_lt_range coords.length).imp ?_
    intro i1 i2 hi x hx y hy
    rw [List.mem_map] at hx hy
    obtain ⟨j1, -, rfl⟩ := hx
    obtain ⟨j2, -, rfl⟩ := hy
    exact Or.inl hi

theorem savingsList_nodup (dist : Point K → Point K → K) (depot : Point K)
    (coords : List (Point K)) : (savingsList dist depot coords).Nodup := by
  refine (savingsList_pairwise dist depot coords).imp ?_
  intro a b hab hc
  subst hc
  rcases hab with h | ⟨-, h⟩ <;> omega

/-- C6: the savings builder processes client pairs in an order where
every later pair has a strictly smaller saving value, or an equal saving
value and a lexicographically larger `(i, j)`: descending savings with
ties broken by ascending pair order. -/
theorem claim_C6 (dist : Point K → Point K → K) (depot : Point K)
    (coords : List (Point K)) :
    (sortedSavings (savingsList dist depot coords)).Pairwise
      (fun a b => b.1 < a.1 ∨ (a.1 = b.1 ∧ pairLt a.2 b.2)) := by
  have hQ := savingsList_pairwise dist depot coords
  have hnd := savingsList_nodup dist depot coords
  have hasym : ∀ x y : K × ℕ × ℕ, pairLt x.2 y.2 → pairLt y.2 x.2 → False := by
    intro x y h1 h2
    rcases h1 with h1 | ⟨h1, h1'⟩ <;> rcases h2 with h2 | ⟨h2, h2'⟩ <;> omega
  haveI : IsTotal (K × ℕ × ℕ) (fun a b => b.1 ≤ a.1) :=
    ⟨fun a b => (le_total b.1 a.1).imp id id⟩
  haveI : IsTrans (K × ℕ × ℕ) (fun a b => b.1 ≤ a.1) :=
    ⟨fun _ _ _ hab hbc => le_trans hbc hab⟩
  have hperm : (sortedSavings (savingsList dist depot coords)).Perm
      (savingsList dist depot coords) := List.perm_insertionSort _ _
  have hnd' : (sortedSavings (savingsList dist depot coords)).Nodup :=
    hperm.nodup_iff.mpr hnd
  have hsort : (sortedSavings (savingsList dist depot coords)).Pairwise
      (fun a b => b.1 ≤ a.1) := List.sorted_insertionSort _ _
  rw [List.pairwise_iff_forall_sublist]
  intro a b hab
  have hle : b.1 ≤ a.1 := List.pairwise_iff_forall_sublist.mp hsort hab
  rcases lt_or_eq_of_le hle with hlt | heq
  · exact Or.inl hlt
  · refine Or.inr ⟨heq.symm, ?_⟩
    have hane : a ≠ b := by
      have := hnd'.sublist hab
      simpa using (List.nodup_cons.mp this).1
    have haL : a ∈ savingsList dist depot coords :=
      hperm.subset (hab.subset (List.mem_cons_self a [b]))
    have hbL : b ∈ savingsList dist depot coords :=
      hperm.subset (hab.subset (List.mem_cons_of_mem a (List.mem_cons_self b [])))
    have hor : pairLt a.2 b.2 ∨ pairLt b.2 a.2 := by
      have hsym : Symmetric (fun x y : K × ℕ × ℕ => pairLt x.2 y.2 ∨ pairLt y.2 x.2) := by
        intro x y h
        exact h.symm
      exact (List.Pairwise.forall hsym (hQ.imp (fun h => Or.inl h))) haL hbL hane
    rcases hor with h | h
    · exact h
    · exfalso
      have hsubL : [b, a].Sublist (savingsList dist depot coords) :=
        pair_sublist_of_pairwise (fun x y => pairLt x.2 y.2) hasym _ hQ a b haL hbL h
      have hstab : [b, a].Sublist (sortedSavings (savingsList dist depot coords)) :=
        List.pair_sublist_insertionSort (by rw [heq]) hsubL
      exact hane (sublist_pair_antisym _ hnd' a b hab hstab)

/-- C8: every builder is a deterministic function of the instance, the
cheapest-insertion selection returns the enumeration-first pair of
globally smallest cost delta (clients in ascending index order,
positions left to right: every earlier pair has a strictly larger
delta, every later pair a larger-or-equal one), and the
nearest-neighbour selection returns the minimum-distance client with
ties broken by the smallest client index. -/
theorem claim_C8 (dist : Point K → Point K → K) (data : ProblemData K) :
    ((∀ rs1 rs2, insertion dist data = Except.ok rs1 →
        insertion dist data = Except.ok rs2 → rs1 = rs2)
      ∧ (∀ rs1 rs2, route_first_cluster_second dist data = Except.ok rs1 →
          route_first_cluster_second dist data = Except.ok rs2 → rs1 = rs2)
      ∧ (∀ rs1 rs2, savings dist data = Except.ok rs1 →
          savings dist data = Except.ok rs2 → rs1 = rs2))
    ∧ (∀ (depot : Point K) (coords : List (Point K)) (route unvisited : List ℕ)
          (c pos : ℕ),
        pymin (fun p => insDelta dist depot coords route p.1 p.2)
            (insertionPairs route.length unvisited) = some (c, pos) →
        ∃ l₁ l₂, insertionPairs route.length unvisited = l₁ ++ (c, pos) :: l₂
          ∧ (∀ q ∈ l₁, insDelta dist depot coords route c pos
              < insDelta dist depot coords route q.1 q.2)
          ∧ (∀ q ∈ l₂, insDelta dist depot coords route c pos
              ≤ insDelta dist depot coords route q.1 q.2))
    ∧ (∀ (p : Point K) (coords : List (Point K)) (unvisited : List ℕ) (m : ℕ),
        unvisited.Pairwise (· < ·) →
        pymin (fun j => dist p (coords.getD j ((0 : K), (0 : K)))) unvisited = some m →
        (∀ y ∈ unvisited, dist p (coords.getD m ((0 : K), (0 : K)))
            ≤ dist p (coords.getD y ((0 : K), (0 : K))))
        ∧ (∀ y ∈ unvisited,
            dist p (coords.getD y ((0 : K), (0 : K)))
              = dist p (coords.getD m ((0 : K), (0 : K))) → m ≤ y)) := by
  refine ⟨⟨?_, ?_, ?_⟩, ?_, ?_⟩
  · intro rs1 rs2 h1 h2
    rw [h1] at h2
    exact Except.ok.inj h2
  · intro rs1 rs2 h1 h2
    rw [h1] at h2
    exact Except.ok.inj h2
  · intro rs1 rs2 h1 h2
    rw [h1] at h2
    exact Except.ok.inj h2
  · intro depot coords route unvisited c pos hmin
    obtain ⟨l₁, l₂, he, h₁, h₂⟩ := pymin_spec _ _ _ hmin
    exact ⟨l₁, l₂, he, h₁, h₂⟩
  · intro p coords unvisited m hsorted hmin
    exact ⟨pymin_le _ _ _ hmin, pymin_tie_min _ _ _ hsorted hmin⟩

theorem claim_C8_witness :
    ∃ l₁ l₂, insertionPairs ([0] : List ℕ).length [1] = l₁ ++ ((1 : ℕ), (0 : ℕ)) :: l₂
      ∧ (∀ q ∈ l₁, insDelta distZero ((0 : ℤ), (0 : ℤ))
          [((1 : ℤ), (0 : ℤ)), ((2 : ℤ), (0 : ℤ))] [0] 1 0
            < insDelta distZero ((0 : ℤ), (0 : ℤ))
              [((1 : ℤ), (0 : ℤ)), ((2 : ℤ), (0 : ℤ))] [0] q.1 q.2)
      ∧ (∀ q ∈ l₂, insDelta distZero ((0 : ℤ), (0 : ℤ))
          [((1 : ℤ), (0 : ℤ)), ((2 : ℤ), (0 : ℤ))] [0] 1 0
            ≤ insDelta distZero ((0 : ℤ), (0 : ℤ))
              [((1 : ℤ), (0 : ℤ)), ((2 : ℤ), (0 : ℤ))] [0] q.1 q.2) :=
  (claim_C8 distZero dataA).2.1 ((0 : ℤ), (0 : ℤ))
    [((1 : ℤ), (0 : ℤ)), ((2 : ℤ), (0 : ℤ))] [0] [1] 1 0 (by decide)

end Heur
